import Mathlib

/-!
Verification development for the HdT5 time-shared operating-system simulation
(`simulador.py`, `prueba.py`, `pruebagrafica.py`).

The Python program is a SimPy discrete-event simulation.  We embed it shallowly:

* The global `random` generator is modelled as a stream of abstract rational
  draw values together with a cursor.  Each call to a `random` primitive
  consumes one stream value, in program order.  `random.seed(42)` corresponds
  to starting from the stream `mt42` (the output determined by seed 42) with
  cursor 0; the stream itself is a parameter of the development, since the
  Mersenne-Twister outputs are irrational/opaque.  The claims under proof
  depend only on draw order and on range facts, which the transforms below
  make exact:
  - `random.random()` yields a value in `[0, 1)`; we realise this by taking
    the fractional part `Int.fract` of the raw stream value, so range facts
    hold unconditionally.
  - `random.randint(a, b)` is `a + ⌊u * (b - a + 1)⌋` for a unit draw `u`.
  - `random.uniform(a, b)` is `a + (b - a) * u`.
  - `random.expovariate(lambd)` is `-ln(1 - u) / lambd`; the logarithm is
    transcendental, so it is represented by the abstract nonnegative
    transform `max v 0 / lambd` of the raw draw — the claims never use the
    shape of the exponential transform, only which draw is consumed and that
    the result is a nonnegative time scaled by the mean.

* SimPy's environment is a clock plus a priority queue of events ordered by
  (time, sequence), FIFO on ties; `simpy.Container` (the RAM) is a level plus
  a FIFO get-queue whose head is served while satisfiable; `simpy.Resource`
  (the CPU) is an in-use counter plus a FIFO wait queue, one grant per freed
  slot, the freed slot going to the queue head.  A process that re-requests
  immediately after releasing goes to the back of the queue, as in SimPy
  (the slot is freed synchronously during `release`, and the fresh request
  is appended behind the existing waiters before the trigger scan runs).

* Every process is an explicit state machine (`Fase`); each suspension point
  of the Python generator becomes a scheduled wake event whose handler is
  selected by the current phase.  Ghost fields `retenida` (memory units
  currently held from the pool), `tieneCpu` (holds a CPU server) and
  `cuantos` (completed quanta) record exactly what the specification's
  invariants talk about; they are updated at the same instant the pool level
  or the resource user set changes.
-/

namespace HdT5

/-- Unit draw in `[0, 1)` obtained from a raw stream value, modelling the
value of `random.random()` that underlies each library primitive. -/
def unitDraw (v : ℚ) : ℚ := Int.fract v

/-- Model of `random.randint(a, b)`: an integer uniform on `[a, b]`,
realised as `a + ⌊u * (b - a + 1)⌋` for the unit draw `u`. -/
def randintDraw (a b : ℤ) (v : ℚ) : ℤ := a + ⌊unitDraw v * (b - a + 1)⌋

/-- Model of `random.uniform(a, b)`: `a + (b - a) * u`. -/
def uniformDraw (a b : ℚ) (v : ℚ) : ℚ := a + (b - a) * unitDraw v

/-- Model of `random.expovariate(lambd)`: a nonnegative duration with mean
`1 / lambd`.  The transcendental transform `-ln(1-u)/lambd` is represented by
the abstract nonnegative transform `max v 0 / lambd` of the raw draw. -/
def expovariateDraw (lambd : ℚ) (v : ℚ) : ℚ := (max v 0) / lambd

theorem unitDraw_nonneg (v : ℚ) : 0 ≤ unitDraw v := Int.fract_nonneg v

theorem unitDraw_lt_one (v : ℚ) : unitDraw v < 1 := Int.fract_lt_one v

/-- `randint a b` always lands in `[a, b]` when `a ≤ b`. -/
theorem randintDraw_mem (a b : ℤ) (v : ℚ) (hab : a ≤ b) :
    a ≤ randintDraw a b v ∧ randintDraw a b v ≤ b := by
  unfold randintDraw
  have h0 : (0:ℚ) ≤ unitDraw v := unitDraw_nonneg v
  have h1 : unitDraw v < 1 := unitDraw_lt_one v
  have hm : (0:ℚ) < ((b : ℚ) - a + 1) := by
    have : (a : ℚ) ≤ (b : ℚ) := by exact_mod_cast hab
    linarith
  constructor
  · have : (0:ℚ) ≤ unitDraw v * ((b:ℚ) - a + 1) := by positivity
    have hfl : (0:ℤ) ≤ ⌊unitDraw v * ((b:ℚ) - a + 1)⌋ := by
      exact Int.floor_nonneg.mpr this
    omega
  · have hlt : unitDraw v * ((b:ℚ) - a + 1) < (b:ℚ) - a + 1 := by
      nlinarith
    have hfl : ⌊unitDraw v * ((b:ℚ) - a + 1)⌋ < b - a + 1 := by
      have := Int.floor_le (unitDraw v * ((b:ℚ) - a + 1))
      have h2 : (⌊unitDraw v * ((b:ℚ) - a + 1)⌋ : ℚ) < (b:ℚ) - a + 1 :=
        lt_of_le_of_lt (by exact this) hlt
      exact_mod_cast h2
    omega

/-- `uniform a b` lands in `[a, b)` (hence in `[a, b]`) when `a ≤ b`. -/
theorem uniformDraw_mem (a b : ℚ) (v : ℚ) (hab : a ≤ b) :
    a ≤ uniformDraw a b v ∧ uniformDraw a b v ≤ b := by
  unfold uniformDraw
  have h0 : (0:ℚ) ≤ unitDraw v := unitDraw_nonneg v
  have h1 : unitDraw v < 1 := unitDraw_lt_one v
  constructor
  · nlinarith
  · nlinarith

/-- `randint 1 10` cast to a count is at least 1 (used for memory demand and
instruction totals, both drawn on `[1, 10]`). -/
theorem one_le_randintDraw_toNat (v : ℚ) :
    1 ≤ (randintDraw 1 10 v).toNat ∧ (randintDraw 1 10 v).toNat ≤ 10 := by
  have h := randintDraw_mem 1 10 v (by norm_num)
  omega

/-- State of the global Python `random` generator: the remaining output
stream and the current position.  `random.seed(42)` replaces any such state
with the seed-42 stream at position 0. -/
structure EstadoRandom where
  flujo : ℕ → ℚ
  cursor : ℕ

/-- A SimPy event: virtual firing time, insertion sequence number (FIFO
tie-break), and the id of the actor to resume. -/
structure Ev where
  time : ℚ
  seq : ℕ
  pid : ℕ
deriving DecidableEq, Repr

/-- Pop the event minimal in the lexicographic (time, seq) order, as SimPy's
heap does; sequence numbers are unique, so the choice is unambiguous. -/
def popMin : List Ev → Option (Ev × List Ev)
  | [] => none
  | e :: es =>
    match popMin es with
    | none => some (e, [])
    | some (m, resto) =>
      if e.time < m.time ∨ (e.time = m.time ∧ e.seq ≤ m.seq) then
        some (e, es)
      else
        some (m, e :: resto)

namespace Simulador

/-!
Embedding of `src/simulador.py`.  Constants (lines 8-13):
`RANDOM_SEED = 42`, memory demand drawn on `[1, 10]`, instruction totals on
`[1, 10]`, default `INSTRUCCIONES_POR_CICLO = 3`.
-/

/-- The parameters of `ejecutar_simulacion` (line 69). -/
structure Config where
  numProcesos : ℕ
  intervaloLlegada : ℚ
  memoriaTotal : ℕ
  numCpus : ℕ
  velocidadCpu : ℕ
deriving DecidableEq, Repr

/-- The phases of the `proceso` generator (lines 18-67), one per suspension
point; the wake event scheduled at a suspension fires the handler of the
current phase. -/
inductive Fase where
  | inicio        -- created by `env.process`; about to draw the arrival gap (line 20)
  | llegando      -- arrival timeout pending; on wake: NEW (lines 21-30)
  | esperaMemoria -- suspended in the RAM get queue (line 30)
  | memoriaLista  -- RAM granted, wake pending; on wake: enter the while loop (lines 31-36)
  | esperaCpu     -- READY, suspended in the CPU wait queue (line 37)
  | cpuConcedida  -- CPU granted, wake pending; on wake: RUNNING starts (lines 38-42)
  | ejecutando    -- RUNNING, the one-unit quantum timeout pending (line 42)
  | esperaIo      -- WAITING, the I/O timeout pending (line 63); the CPU is NOT released here
  | terminado     -- TERMINATED / generator finished
deriving DecidableEq, Repr

/-- One process.  `retenida` and `tieneCpu` are ghost fields recording the
memory units currently held from the pool and possession of a CPU server;
`cuantos` counts completed quanta. -/
structure Proc where
  fase : Fase
  llegada : ℚ := 0
  memoria : ℕ := 0
  instrucciones : ℕ := 0
  retenida : ℕ := 0
  tieneCpu : Bool := false
  cuantos : ℕ := 0
deriving DecidableEq, Repr

/-- Full simulation state: clock, event queue, process table, the
`simpy.Container` RAM (level + FIFO get queue), the `simpy.Resource` CPU
(in-use count + FIFO wait queue), the random stream with its cursor, and the
global `tiempos_ejecucion` list (completion order). -/
structure Estado where
  config : Config
  now : ℚ
  nextSeq : ℕ
  eventos : List Ev
  procs : ℕ → Proc
  nivel : ℕ
  colaRam : List (ℕ × ℕ)
  enUso : ℕ
  colaCpu : List ℕ
  flujo : ℕ → ℚ
  cursor : ℕ
  tiempos : List ℚ

/-- Consume the next random draw. -/
def saca (st : Estado) : ℚ × Estado :=
  (st.flujo st.cursor, { st with cursor := st.cursor + 1 })

/-- `env.timeout(d)` for actor `p`: schedule a wake at `now + d` with the
next sequence number. -/
def programa (st : Estado) (d : ℚ) (p : ℕ) : Estado :=
  { st with eventos := st.eventos ++ [⟨st.now + d, st.nextSeq, p⟩],
            nextSeq := st.nextSeq + 1 }

/-- Update one process. -/
def pon (st : Estado) (p : ℕ) (pr : Proc) : Estado :=
  { st with procs := Function.update st.procs p pr }

/-- The `Container` trigger scan: serve the get queue from the head while the
head is satisfiable, transferring the amount from the level to the holder and
scheduling its wake; stop at the first unsatisfiable head (strict FIFO,
convoy behaviour). -/
def disparaRamAux : List (ℕ × ℕ) → Estado → Estado
  | [], st => st
  | (p, a) :: resto, st =>
    if a ≤ st.nivel then
      let pr := st.procs p
      disparaRamAux resto
        (programa (pon { st with nivel := st.nivel - a } p
          { pr with retenida := pr.retenida + a, fase := .memoriaLista }) 0 p)
    else
      { st with colaRam := (p, a) :: resto }

def disparaRam (st : Estado) : Estado :=
  disparaRamAux st.colaRam { st with colaRam := [] }

/-- `RAM.get(a)` (line 30): append to the get queue, then trigger. -/
def solicitaRam (st : Estado) (p : ℕ) (a : ℕ) : Estado :=
  disparaRam (pon { st with colaRam := st.colaRam ++ [(p, a)] } p
    { st.procs p with fase := .esperaMemoria })

/-- `RAM.put(memoria_requerida)` at TERMINATED (lines 50-51): the level
rises by the process's demand, the holder gives back exactly that amount and
enters its terminal phase, and the get queue is served. -/
def depositaRam (st : Estado) (p : ℕ) : Estado :=
  let pr := st.procs p
  disparaRam (pon { st with nivel := st.nivel + pr.memoria } p
    { pr with retenida := pr.retenida - pr.memoria, fase := .terminado })

/-- The `Resource` trigger scan: grant freed slots to the FIFO wait queue
head while capacity remains. -/
def disparaCpuAux : List ℕ → Estado → Estado
  | [], st => st
  | p :: resto, st =>
    if st.enUso < st.config.numCpus then
      disparaCpuAux resto
        (programa (pon { st with enUso := st.enUso + 1 } p
          { st.procs p with tieneCpu := true, fase := .cpuConcedida }) 0 p)
    else
      { st with colaCpu := p :: resto }

def disparaCpu (st : Estado) : Estado :=
  disparaCpuAux st.colaCpu { st with colaCpu := [] }

/-- `CPU.request()` (line 36): append to the wait queue, then trigger. -/
def solicitaCpu (st : Estado) (p : ℕ) : Estado :=
  disparaCpu (pon { st with colaCpu := st.colaCpu ++ [p] } p
    { st.procs p with fase := .esperaCpu })

/-- Exit of the `with CPU.request()` block: the slot is freed and the trigger
scan passes it to the waiting head. -/
def liberaCpu (st : Estado) (p : ℕ) : Estado :=
  disparaCpu (pon { st with enUso := st.enUso - 1 } p
    { st.procs p with tieneCpu := false })

/-- Handler for a wake event of actor `p`: the continuation of `proceso`
(lines 18-67) from the suspension point recorded in its phase. -/
def atiende (st : Estado) (p : ℕ) : Estado :=
  let pr := st.procs p
  match pr.fase with
  | .inicio =>
    -- line 20: yield env.timeout(random.expovariate(1.0 / intervalo_llegada))
    let (v, st) := saca st
    let gap := expovariateDraw (1 / st.config.intervaloLlegada) v
    programa (pon st p { pr with fase := .llegando }) gap p
  | .llegando =>
    -- lines 21-30: record arrival, draw demand and instructions, RAM.get
    let (v1, st) := saca st
    let (v2, st) := saca st
    let m := (randintDraw 1 10 v1).toNat
    let ins := (randintDraw 1 10 v2).toNat
    solicitaRam
      (pon st p { pr with llegada := st.now, memoria := m, instrucciones := ins }) p m
  | .esperaMemoria => st   -- passive: resumed by the Container trigger scan
  | .memoriaLista =>
    -- line 34: while instrucciones_totales > 0 / line 36: CPU.request()
    if 0 < pr.instrucciones then
      solicitaCpu st p
    else
      -- loop never entered; the generator ends holding its memory.
      -- Unreachable: the instruction total is drawn on [1, 10].
      pon st p { pr with fase := .terminado }
  | .esperaCpu => st       -- passive: resumed by the Resource trigger scan
  | .cpuConcedida =>
    -- lines 41-42: compute the slice, yield env.timeout(1)
    programa (pon st p { pr with fase := .ejecutando }) 1 p
  | .ejecutando =>
    -- lines 43-67: quantum end (the decremented count and quantum tally are
    -- written once, together with the phase the branch decides)
    let ejecutadas := min st.config.velocidadCpu pr.instrucciones
    let resto := pr.instrucciones - ejecutadas
    if resto = 0 then
      -- lines 48-55: TERMINATED: RAM.put, record turnaround, break;
      -- then the with-block exit releases the CPU
      let st := depositaRam
        (pon st p { pr with instrucciones := resto, cuantos := pr.cuantos + 1 }) p
      let st := { st with tiempos := st.tiempos ++ [st.now - (st.procs p).llegada] }
      liberaCpu st p
    else
      -- lines 56-67: draw the branch decision
      let (v, st) := saca st
      if randintDraw 1 21 v = 1 then
        -- lines 59-63: WAITING: the I/O timeout is INSIDE the with block,
        -- so the CPU server stays held during the wait
        let (v2, st) := saca st
        let tio := uniformDraw 1 3 v2
        programa
          (pon st p
            { pr with
              instrucciones := resto
              cuantos := pr.cuantos + 1
              fase := .esperaIo })
          tio p
      else
        -- back to READY: with-block exit releases the CPU, then the loop
        -- re-requests it (the fresh request queues behind existing waiters)
        solicitaCpu
          (liberaCpu
            (pon st p { pr with instrucciones := resto, cuantos := pr.cuantos + 1 })
            p) p
  | .esperaIo =>
    -- line 64: I/O over; with-block exit releases the CPU, loop re-checks
    let st := liberaCpu st p
    if 0 < (st.procs p).instrucciones then
      solicitaCpu st p
    else
      pon st p { st.procs p with fase := .terminado }
  | .terminado => st

/-- A process is live (admitted and not yet terminated) exactly while it
holds memory: from the grant of its `RAM.get` until its `RAM.put`. -/
def viva : Fase → Bool
  | .memoriaLista | .esperaCpu | .cpuConcedida | .ejecutando | .esperaIo => true
  | _ => false

/-- Phases at which the process is about to test the
`while instrucciones > 0` loop guard, so its remaining instruction count
must be positive for the subsequent transition to be the one the code
takes. -/
def conInstrucciones : Fase → Bool
  | .esperaMemoria | .memoriaLista | .esperaIo => true
  | _ => false

/-- Total memory currently held by the processes (ghost accounting). -/
def sumaRetenida (st : Estado) : ℕ :=
  Finset.sum (Finset.range st.config.numProcesos) (fun i => (st.procs i).retenida)

/-- Process one event: pop the (time, seq)-minimal event, advance the clock
to it, run the handler.  No events: the run is over (`env.run()` returns). -/
def paso (st : Estado) : Estado :=
  match popMin st.eventos with
  | none => st
  | some (e, resto) => atiende { st with now := e.time, eventos := resto } e.pid

/-- Process up to `n` events. -/
def pasos : ℕ → Estado → Estado
  | 0, st => st
  | n + 1, st => pasos n (paso st)

/-- Initial state of `ejecutar_simulacion` (lines 74-87): fresh environment,
FIFO initialisation events for the `num_procesos` created processes, the RAM
container full at `memoria_total`, the CPU pool idle, the stream positioned
at 0 (after `random.seed(RANDOM_SEED)`), `tiempos_ejecucion` reset. -/
def inicial (mt42 : ℕ → ℚ) (c : Config) : Estado :=
  { config := c
    now := 0
    nextSeq := c.numProcesos
    eventos := (List.range c.numProcesos).map (fun i => ⟨0, i, i⟩)
    procs := fun _ => { fase := .inicio }
    nivel := c.memoriaTotal
    colaRam := []
    enUso := 0
    colaCpu := []
    flujo := mt42
    cursor := 0
    tiempos := [] }

/-- The turnaround times harvested by a run of `ejecutar_simulacion`
executed for `fuel` events.  `g` is the caller's pre-existing global
generator state: line 79 (`random.seed(RANDOM_SEED)`) discards it and the run
proceeds from the seed-42 stream `mt42`. -/
def resultado (mt42 : ℕ → ℚ) (_g : EstadoRandom) (c : Config) (fuel : ℕ) : List ℚ :=
  (pasos fuel (inicial mt42 c)).tiempos

/-!  ### Structural lemmas about the trigger scans  -/

theorem disparaRamAux_ignora (q : List (ℕ × ℕ)) (st : Estado) (p : ℕ)
    (hp : p ∉ q.map Prod.fst) : (disparaRamAux q st).procs p = st.procs p := by
  induction q generalizing st with
  | nil => rfl
  | cons hd tl ih =>
    obtain ⟨w, a⟩ := hd
    simp only [List.map_cons, List.mem_cons, not_or] at hp
    simp only [disparaRamAux]
    split
    · rw [ih _ hp.2]
      show Function.update st.procs w _ p = st.procs p
      rw [Function.update_noteq hp.1]
    · rfl

theorem disparaRamAux_instrucciones (q : List (ℕ × ℕ)) (st : Estado) (p : ℕ) :
    ((disparaRamAux q st).procs p).instrucciones = (st.procs p).instrucciones := by
  induction q generalizing st with
  | nil => rfl
  | cons hd tl ih =>
    obtain ⟨w, a⟩ := hd
    simp only [disparaRamAux]
    split
    · rw [ih]
      show (Function.update st.procs w _ p).instrucciones = _
      by_cases h : p = w
      · subst h
        rw [Function.update_same]
      · rw [Function.update_noteq h]
    · rfl

theorem disparaCpuAux_ignora (q : List ℕ) (st : Estado) (p : ℕ)
    (hp : p ∉ q) : (disparaCpuAux q st).procs p = st.procs p := by
  induction q generalizing st with
  | nil => rfl
  | cons w tl ih =>
    simp only [List.mem_cons, not_or] at hp
    simp only [disparaCpuAux]
    split
    · rw [ih _ hp.2]
      show Function.update st.procs w _ p = st.procs p
      rw [Function.update_noteq hp.1]
    · rfl

theorem disparaCpuAux_instrucciones (q : List ℕ) (st : Estado) (p : ℕ) :
    ((disparaCpuAux q st).procs p).instrucciones = (st.procs p).instrucciones := by
  induction q generalizing st with
  | nil => rfl
  | cons w tl ih =>
    simp only [disparaCpuAux]
    split
    · rw [ih]
      show (Function.update st.procs w _ p).instrucciones = _
      by_cases h : p = w
      · subst h
        rw [Function.update_same]
      · rw [Function.update_noteq h]
    · rfl

/-- The resource trigger scan leaves every process either still waiting for
the CPU or freshly granted. -/
theorem disparaCpuAux_fase_espera (q : List ℕ) (st : Estado) (p : ℕ)
    (h : (st.procs p).fase = .esperaCpu ∨ (st.procs p).fase = .cpuConcedida) :
    ((disparaCpuAux q st).procs p).fase = .esperaCpu
      ∨ ((disparaCpuAux q st).procs p).fase = .cpuConcedida := by
  induction q generalizing st with
  | nil => exact h
  | cons w tl ih =>
    simp only [disparaCpuAux]
    split
    · apply ih
      show (Function.update st.procs w _ p).fase = _ ∨ (Function.update st.procs w _ p).fase = _
      by_cases hpw : p = w
      · subst hpw
        rw [Function.update_same]
        exact Or.inr rfl
      · rw [Function.update_noteq hpw]
        exact h
    · exact h

/-- What `popMin` returns comes from the list, and the remainder is included
in the list. -/
theorem popMin_spec : ∀ (l : List Ev) (e : Ev) (r : List Ev),
    popMin l = some (e, r) → e ∈ l ∧ ∀ x ∈ r, x ∈ l := by
  intro l
  induction l with
  | nil =>
    intro e r h
    simp [popMin] at h
  | cons a as ih =>
    intro e r h
    simp only [popMin] at h
    cases hm : popMin as with
    | none =>
      rw [hm] at h
      simp only [Option.some.injEq, Prod.mk.injEq] at h
      obtain ⟨rfl, rfl⟩ := h
      refine ⟨List.mem_cons_self a as, ?_⟩
      intro x hx
      cases hx
    | some pr =>
      obtain ⟨m, resto⟩ := pr
      rw [hm] at h
      obtain ⟨hmem, hsub⟩ := ih m resto hm
      try dsimp only at h
      split at h
      · simp only [Option.some.injEq, Prod.mk.injEq] at h
        obtain ⟨rfl, rfl⟩ := h
        exact ⟨List.mem_cons_self a as, fun x hx => List.mem_cons_of_mem a hx⟩
      · simp only [Option.some.injEq, Prod.mk.injEq] at h
        obtain ⟨rfl, rfl⟩ := h
        refine ⟨List.mem_cons_of_mem a hmem, ?_⟩
        intro x hx
        rcases List.mem_cons.mp hx with rfl | hx
        · exact List.mem_cons_self x as
        · exact List.mem_cons_of_mem a (hsub x hx)

/-- Updating one process's record shifts the held-memory total by the
difference at that process. -/
theorem suma_update (f : ℕ → Proc) (n p : ℕ) (pr : Proc) (hp : p < n) :
    Finset.sum (Finset.range n) (fun i => (Function.update f p pr i).retenida)
      + (f p).retenida
    = Finset.sum (Finset.range n) (fun i => (f i).retenida) + pr.retenida := by
  have hmem : p ∈ Finset.range n := Finset.mem_range.mpr hp
  have hfun : ∀ i, (Function.update f p pr i).retenida
      = Function.update (fun j => (f j).retenida) p pr.retenida i := by
    intro i
    by_cases h : i = p
    · subst h
      rw [Function.update_same, Function.update_same]
    · rw [Function.update_noteq h, Function.update_noteq h]
  rw [Finset.sum_congr rfl (fun i _ => hfun i), Finset.sum_update_of_mem hmem,
    Finset.sum_eq_sum_diff_singleton_add hmem (fun i => (f i).retenida)]
  omega

/-!  ### The memory-conservation invariant (claim C1)

`InvQC st qr qc` states the run invariant with the RAM get queue `qr` and
the CPU wait queue `qc` passed explicitly, so that the trigger scans (which
detach the queues while serving them) can be handled by induction on the
detached queue.  `Inv` instantiates it with the queues stored in the
state. -/
structure InvQC (st : Estado) (qr : List (ℕ × ℕ)) (qc : List ℕ) : Prop where
  conserva : st.nivel + sumaRetenida st = st.config.memoriaTotal
  vivaRet : ∀ i, viva (st.procs i).fase = true →
    (st.procs i).retenida = (st.procs i).memoria
  muertaRet : ∀ i, viva (st.procs i).fase = false → (st.procs i).retenida = 0
  conInstr : ∀ i, conInstrucciones (st.procs i).fase = true →
    1 ≤ (st.procs i).instrucciones
  evPid : ∀ e ∈ st.eventos, e.pid < st.config.numProcesos
  ramOk : ∀ par ∈ qr, par.1 < st.config.numProcesos
    ∧ (st.procs par.1).fase = .esperaMemoria ∧ par.2 = (st.procs par.1).memoria
  ramNodup : (qr.map Prod.fst).Nodup
  cpuOk : ∀ p ∈ qc, p < st.config.numProcesos ∧ (st.procs p).fase = .esperaCpu
  cpuNodup : qc.Nodup

def Inv (st : Estado) : Prop := InvQC st st.colaRam st.colaCpu

/-- Serving the RAM get queue preserves the invariant: each grant moves the
amount from the pool level to the holder at the same instant. -/
theorem inv_disparaRamAux : ∀ (qr : List (ℕ × ℕ)) (st : Estado),
    st.colaRam = [] → InvQC st qr st.colaCpu → Inv (disparaRamAux qr st) := by
  intro qr
  induction qr with
  | nil =>
    intro st hram h
    show InvQC st st.colaRam st.colaCpu
    rw [hram]
    exact h
  | cons hd tl ih =>
    intro st hram h
    obtain ⟨p, a⟩ := hd
    obtain ⟨hpn, hpf, hpa⟩ := h.ramOk (p, a) (List.mem_cons_self _ _)
    try dsimp only at hpn hpf hpa
    have hret0 : (st.procs p).retenida = 0 := h.muertaRet p (by rw [hpf]; rfl)
    have hinstr : 1 ≤ (st.procs p).instrucciones := h.conInstr p (by rw [hpf]; rfl)
    have hptl : p ∉ tl.map Prod.fst := by
      have hnd := h.ramNodup
      simp only [List.map_cons, List.nodup_cons] at hnd
      exact hnd.1
    simp only [disparaRamAux]
    split
    next hle =>
      refine ih _ hram ?_
      refine ⟨?_, ?_, ?_, ?_, ?_, ?_, ?_, ?_, ?_⟩
      · -- conserva
        have hsum := suma_update st.procs st.config.numProcesos p
          { st.procs p with
            retenida := (st.procs p).retenida + a
            fase := .memoriaLista } hpn
        have hc := h.conserva
        simp only [sumaRetenida] at hc ⊢
        simp only [programa, pon]
        try dsimp only
        try dsimp only at hsum
        omega
      · -- vivaRet
        intro i hv
        simp only [programa, pon] at hv ⊢
        try dsimp only at hv ⊢
        by_cases hip : i = p
        · subst hip
          rw [Function.update_same] at hv ⊢
          try dsimp only
          omega
        · rw [Function.update_noteq hip] at hv ⊢
          exact h.vivaRet i hv
      · -- muertaRet
        intro i hv
        simp only [programa, pon] at hv ⊢
        try dsimp only at hv ⊢
        by_cases hip : i = p
        · subst hip
          rw [Function.update_same] at hv
          simp [viva] at hv
        · rw [Function.update_noteq hip] at hv ⊢
          exact h.muertaRet i hv
      · -- conInstr
        intro i hv
        simp only [programa, pon] at hv ⊢
        try dsimp only at hv ⊢
        by_cases hip : i = p
        · subst hip
          rw [Function.update_same] at hv ⊢
          exact hinstr
        · rw [Function.update_noteq hip] at hv ⊢
          exact h.conInstr i hv
      · -- evPid
        intro e he
        simp only [programa, pon] at he ⊢
        try dsimp only at he ⊢
        rcases List.mem_append.mp he with he | he
        · exact h.evPid e he
        · simp only [List.mem_singleton] at he
          subst he
          exact hpn
      · -- ramOk
        intro par hpar
        obtain ⟨h1, h2, h3⟩ := h.ramOk par (List.mem_cons_of_mem _ hpar)
        have hne : par.1 ≠ p := by
          intro hcontra
          apply hptl
          rw [← hcontra]
          exact List.mem_map_of_mem Prod.fst hpar
        simp only [programa, pon]
        try dsimp only
        rw [Function.update_noteq hne]
        exact ⟨h1, h2, h3⟩
      · -- ramNodup
        have hnd := h.ramNodup
        simp only [List.map_cons, List.nodup_cons] at hnd
        exact hnd.2
      · -- cpuOk
        intro w hw
        obtain ⟨h1, h2⟩ := h.cpuOk w hw
        have hne : w ≠ p := by
          intro hcontra
          rw [hcontra, hpf] at h2
          cases h2
        simp only [programa, pon]
        try dsimp only
        rw [Function.update_noteq hne]
        exact ⟨h1, h2⟩
      · -- cpuNodup
        exact h.cpuNodup
    next hle =>
      show InvQC _ ((p, a) :: tl) st.colaCpu
      exact ⟨h.conserva, h.vivaRet, h.muertaRet, h.conInstr, h.evPid, h.ramOk,
        h.ramNodup, h.cpuOk, h.cpuNodup⟩

/-- Granting freed CPU slots to the wait queue preserves the invariant:
no memory accounting changes. -/
theorem inv_disparaCpuAux : ∀ (qc : List ℕ) (st : Estado),
    st.colaCpu = [] → InvQC st st.colaRam qc → Inv (disparaCpuAux qc st) := by
  intro qc
  induction qc with
  | nil =>
    intro st hcpu h
    show InvQC st st.colaRam st.colaCpu
    rw [hcpu]
    exact h
  | cons w tl ih =>
    intro st hcpu h
    obtain ⟨hwn, hwf⟩ := h.cpuOk w (List.mem_cons_self _ _)
    have hwret : (st.procs w).retenida = (st.procs w).memoria :=
      h.vivaRet w (by rw [hwf]; rfl)
    have hwtl : w ∉ tl := by
      have hnd := h.cpuNodup
      simp only [List.nodup_cons] at hnd
      exact hnd.1
    simp only [disparaCpuAux]
    split
    next hlt =>
      refine ih _ hcpu ?_
      refine ⟨?_, ?_, ?_, ?_, ?_, ?_, ?_, ?_, ?_⟩
      · -- conserva
        have hsum := suma_update st.procs st.config.numProcesos w
          ({ st.procs w with
             tieneCpu := true
             fase := .cpuConcedida }) hwn
        have hc := h.conserva
        simp only [sumaRetenida] at hc ⊢
        simp only [programa, pon]
        try dsimp only
        try dsimp only at hsum
        omega
      · -- vivaRet
        intro i hv
        simp only [programa, pon] at hv ⊢
        try dsimp only at hv ⊢
        by_cases hiw : i = w
        · subst hiw
          rw [Function.update_same] at hv ⊢
          try dsimp only
          exact hwret
        · rw [Function.update_noteq hiw] at hv ⊢
          exact h.vivaRet i hv
      · -- muertaRet
        intro i hv
        simp only [programa, pon] at hv ⊢
        try dsimp only at hv ⊢
        by_cases hiw : i = w
        · subst hiw
          rw [Function.update_same] at hv
          simp [viva] at hv
        · rw [Function.update_noteq hiw] at hv ⊢
          exact h.muertaRet i hv
      · -- conInstr
        intro i hv
        simp only [programa, pon] at hv ⊢
        try dsimp only at hv ⊢
        by_cases hiw : i = w
        · subst hiw
          rw [Function.update_same] at hv
          simp [conInstrucciones] at hv
        · rw [Function.update_noteq hiw] at hv ⊢
          exact h.conInstr i hv
      · -- evPid
        intro e he
        simp only [programa, pon] at he ⊢
        try dsimp only at he ⊢
        rcases List.mem_append.mp he with he | he
        · exact h.evPid e he
        · simp only [List.mem_singleton] at he
          subst he
          exact hwn
      · -- ramOk
        intro par hpar
        obtain ⟨h1, h2, h3⟩ := h.ramOk par hpar
        have hne : par.1 ≠ w := by
          intro hcontra
          rw [hcontra, hwf] at h2
          cases h2
        simp only [programa, pon]
        try dsimp only
        rw [Function.update_noteq hne]
        exact ⟨h1, h2, h3⟩
      · -- ramNodup
        exact h.ramNodup
      · -- cpuOk
        intro u hu
        obtain ⟨h1, h2⟩ := h.cpuOk u (List.mem_cons_of_mem _ hu)
        have hne : u ≠ w := by
          intro hcontra
          subst hcontra
          exact hwtl hu
        simp only [programa, pon]
        try dsimp only
        rw [Function.update_noteq hne]
        exact ⟨h1, h2⟩
      · -- cpuNodup
        have hnd := h.cpuNodup
        simp only [List.nodup_cons] at hnd
        exact hnd.2
    next hlt =>
      show InvQC _ st.colaRam (w :: tl)
      exact ⟨h.conserva, h.vivaRet, h.muertaRet, h.conInstr, h.evPid, h.ramOk,
        h.ramNodup, h.cpuOk, h.cpuNodup⟩

theorem disparaRamAux_config (q : List (ℕ × ℕ)) (st : Estado) :
    (disparaRamAux q st).config = st.config := by
  induction q generalizing st with
  | nil => rfl
  | cons hd tl ih =>
    obtain ⟨w, a⟩ := hd
    simp only [disparaRamAux]
    split
    · rw [ih]
      rfl
    · rfl

theorem disparaCpuAux_config (q : List ℕ) (st : Estado) :
    (disparaCpuAux q st).config = st.config := by
  induction q generalizing st with
  | nil => rfl
  | cons w tl ih =>
    simp only [disparaCpuAux]
    split
    · rw [ih]
      rfl
    · rfl

/-- Replacing one process record preserves the invariant when the new record
keeps the held amount and stays consistent with its phase, and the process
sits in neither wait queue. -/
theorem invQC_pon (st : Estado) (p : ℕ) (pr' : Proc)
    (hp : p < st.config.numProcesos)
    (h : InvQC st st.colaRam st.colaCpu)
    (hret : pr'.retenida = (st.procs p).retenida)
    (hviva : viva pr'.fase = true → pr'.retenida = pr'.memoria)
    (hmuerta : viva pr'.fase = false → pr'.retenida = 0)
    (hinstr : conInstrucciones pr'.fase = true → 1 ≤ pr'.instrucciones)
    (hnoram : (st.procs p).fase ≠ .esperaMemoria)
    (hnocpu : (st.procs p).fase ≠ .esperaCpu) :
    InvQC (pon st p pr') (pon st p pr').colaRam (pon st p pr').colaCpu := by
  refine ⟨?_, ?_, ?_, ?_, ?_, ?_, ?_, ?_, ?_⟩
  · -- conserva
    have hsum := suma_update st.procs st.config.numProcesos p pr' hp
    have hc := h.conserva
    simp only [sumaRetenida] at hc ⊢
    simp only [pon]
    try dsimp only
    omega
  · -- vivaRet
    intro i hv
    simp only [pon] at hv ⊢
    try dsimp only at hv ⊢
    by_cases hip : i = p
    · subst hip
      rw [Function.update_same] at hv ⊢
      exact hviva hv
    · rw [Function.update_noteq hip] at hv ⊢
      exact h.vivaRet i hv
  · -- muertaRet
    intro i hv
    simp only [pon] at hv ⊢
    try dsimp only at hv ⊢
    by_cases hip : i = p
    · subst hip
      rw [Function.update_same] at hv ⊢
      exact hmuerta hv
    · rw [Function.update_noteq hip] at hv ⊢
      exact h.muertaRet i hv
  · -- conInstr
    intro i hv
    simp only [pon] at hv ⊢
    try dsimp only at hv ⊢
    by_cases hip : i = p
    · subst hip
      rw [Function.update_same] at hv ⊢
      exact hinstr hv
    · rw [Function.update_noteq hip] at hv ⊢
      exact h.conInstr i hv
  · -- evPid
    intro e he
    exact h.evPid e he
  · -- ramOk
    intro par hpar
    obtain ⟨h1, h2, h3⟩ := h.ramOk par hpar
    have hne : par.1 ≠ p := by
      intro hcontra
      rw [hcontra] at h2
      exact hnoram h2
    simp only [pon]
    try dsimp only
    rw [Function.update_noteq hne]
    exact ⟨h1, h2, h3⟩
  · -- ramNodup
    exact h.ramNodup
  · -- cpuOk
    intro w hw
    obtain ⟨h1, h2⟩ := h.cpuOk w hw
    have hne : w ≠ p := by
      intro hcontra
      rw [hcontra] at h2
      exact hnocpu h2
    simp only [pon]
    try dsimp only
    rw [Function.update_noteq hne]
    exact ⟨h1, h2⟩
  · -- cpuNodup
    exact h.cpuNodup

/-- Scheduling a wake for a valid process preserves the invariant. -/
theorem inv_programa (st : Estado) (d : ℚ) (p : ℕ)
    (hp : p < st.config.numProcesos)
    (h : InvQC st st.colaRam st.colaCpu) : Inv (programa st d p) := by
  refine ⟨h.conserva, h.vivaRet, h.muertaRet, h.conInstr, ?_, h.ramOk, h.ramNodup,
    h.cpuOk, h.cpuNodup⟩
  intro e he
  simp only [programa] at he
  try dsimp only at he
  rcases List.mem_append.mp he with he | he
  · exact h.evPid e he
  · simp only [List.mem_singleton] at he
    subst he
    exact hp

/-- Releasing the CPU (the with-block exit) preserves the invariant: nothing
about memory changes, and the freed slot is passed along by the trigger
scan. -/
theorem inv_liberaCpu (st : Estado) (p : ℕ) (hp : p < st.config.numProcesos)
    (h : InvQC st st.colaRam st.colaCpu) : Inv (liberaCpu st p) := by
  unfold liberaCpu disparaCpu
  apply inv_disparaCpuAux _ _ rfl
  refine ⟨?_, ?_, ?_, ?_, ?_, ?_, ?_, ?_, ?_⟩
  · -- conserva
    have hsum := suma_update st.procs st.config.numProcesos p
      ({ st.procs p with tieneCpu := false }) hp
    have hc := h.conserva
    simp only [sumaRetenida] at hc ⊢
    simp only [pon]
    try dsimp only
    try dsimp only at hsum
    omega
  · -- vivaRet
    intro i hv
    simp only [pon] at hv ⊢
    try dsimp only at hv ⊢
    by_cases hip : i = p
    · subst hip
      rw [Function.update_same] at hv ⊢
      try dsimp only
      try dsimp only at hv
      exact h.vivaRet i hv
    · rw [Function.update_noteq hip] at hv ⊢
      exact h.vivaRet i hv
  · -- muertaRet
    intro i hv
    simp only [pon] at hv ⊢
    try dsimp only at hv ⊢
    by_cases hip : i = p
    · subst hip
      rw [Function.update_same] at hv ⊢
      try dsimp only
      try dsimp only at hv
      exact h.muertaRet i hv
    · rw [Function.update_noteq hip] at hv ⊢
      exact h.muertaRet i hv
  · -- conInstr
    intro i hv
    simp only [pon] at hv ⊢
    try dsimp only at hv ⊢
    by_cases hip : i = p
    · subst hip
      rw [Function.update_same] at hv ⊢
      try dsimp only
      try dsimp only at hv
      exact h.conInstr i hv
    · rw [Function.update_noteq hip] at hv ⊢
      exact h.conInstr i hv
  · -- evPid
    intro e he
    exact h.evPid e he
  · -- ramOk
    intro par hpar
    obtain ⟨h1, h2, h3⟩ := h.ramOk par hpar
    simp only [pon]
    try dsimp only
    by_cases hne : par.1 = p
    · rw [hne, Function.update_same]
      rw [hne] at h1 h2 h3
      exact ⟨h1, h2, h3⟩
    · rw [Function.update_noteq hne]
      exact ⟨h1, h2, h3⟩
  · -- ramNodup
    exact h.ramNodup
  · -- cpuOk
    intro w hw
    obtain ⟨h1, h2⟩ := h.cpuOk w hw
    simp only [pon]
    try dsimp only
    by_cases hne : w = p
    · rw [hne, Function.update_same]
      rw [hne] at h1 h2
      exact ⟨h1, h2⟩
    · rw [Function.update_noteq hne]
      exact ⟨h1, h2⟩
  · -- cpuNodup
    exact h.cpuNodup

/-- Requesting the CPU from READY preserves the invariant: the process joins
the back of the wait queue (and may be granted at once by the scan). -/
theorem inv_solicitaCpu (st : Estado) (p : ℕ) (hp : p < st.config.numProcesos)
    (h : InvQC st st.colaRam st.colaCpu)
    (hviva : viva (st.procs p).fase = true)
    (hnoram : (st.procs p).fase ≠ .esperaMemoria)
    (hnocpu : (st.procs p).fase ≠ .esperaCpu) :
    Inv (solicitaCpu st p) := by
  have hpm : p ∉ st.colaCpu := by
    intro hmem
    exact hnocpu (h.cpuOk p hmem).2
  unfold solicitaCpu disparaCpu
  apply inv_disparaCpuAux _ _ rfl
  refine ⟨?_, ?_, ?_, ?_, ?_, ?_, ?_, ?_, ?_⟩
  · -- conserva
    have hsum := suma_update st.procs st.config.numProcesos p
      ({ st.procs p with fase := .esperaCpu }) hp
    have hc := h.conserva
    simp only [sumaRetenida] at hc ⊢
    simp only [pon]
    try dsimp only
    try dsimp only at hsum
    omega
  · -- vivaRet
    intro i hv
    simp only [pon] at hv ⊢
    try dsimp only at hv ⊢
    by_cases hip : i = p
    · subst hip
      rw [Function.update_same]
      try dsimp only
      exact h.vivaRet i hviva
    · rw [Function.update_noteq hip] at hv ⊢
      exact h.vivaRet i hv
  · -- muertaRet
    intro i hv
    simp only [pon] at hv ⊢
    try dsimp only at hv ⊢
    by_cases hip : i = p
    · subst hip
      rw [Function.update_same] at hv
      simp [viva] at hv
    · rw [Function.update_noteq hip] at hv ⊢
      exact h.muertaRet i hv
  · -- conInstr
    intro i hv
    simp only [pon] at hv ⊢
    try dsimp only at hv ⊢
    by_cases hip : i = p
    · subst hip
      rw [Function.update_same] at hv
      simp [conInstrucciones] at hv
    · rw [Function.update_noteq hip] at hv ⊢
      exact h.conInstr i hv
  · -- evPid
    intro e he
    exact h.evPid e he
  · -- ramOk
    intro par hpar
    obtain ⟨h1, h2, h3⟩ := h.ramOk par hpar
    have hne : par.1 ≠ p := by
      intro hcontra
      rw [hcontra] at h2
      exact hnoram h2
    simp only [pon]
    try dsimp only
    rw [Function.update_noteq hne]
    exact ⟨h1, h2, h3⟩
  · -- ramNodup
    exact h.ramNodup
  · -- cpuOk
    intro w hw
    simp only [pon]
    try dsimp only
    rcases List.mem_append.mp hw with hw | hw
    · obtain ⟨h1, h2⟩ := h.cpuOk w hw
      have hne : w ≠ p := by
        intro hcontra
        rw [hcontra] at h2
        exact hnocpu h2
      rw [Function.update_noteq hne]
      exact ⟨h1, h2⟩
    · simp only [List.mem_singleton] at hw
      subst hw
      rw [Function.update_same]
      exact ⟨hp, rfl⟩
  · -- cpuNodup
    refine List.Nodup.append h.cpuNodup (List.nodup_singleton p) ?_
    intro x hx hx'
    simp only [List.mem_singleton] at hx'
    subst hx'
    exact hpm hx

/-- Requesting memory at NEW preserves the invariant: the process joins the
back of the get queue with its freshly drawn demand. -/
theorem inv_solicitaRam (st : Estado) (p a : ℕ) (hp : p < st.config.numProcesos)
    (h : InvQC st st.colaRam st.colaCpu)
    (hmem : a = (st.procs p).memoria)
    (hinstr : 1 ≤ (st.procs p).instrucciones)
    (hdead : viva (st.procs p).fase = false)
    (hnoram : (st.procs p).fase ≠ .esperaMemoria)
    (hnocpu : (st.procs p).fase ≠ .esperaCpu) :
    Inv (solicitaRam st p a) := by
  have hret0 : (st.procs p).retenida = 0 := h.muertaRet p hdead
  have hpm : p ∉ st.colaRam.map Prod.fst := by
    intro hmem'
    obtain ⟨par, hpar, hfst⟩ := List.mem_map.mp hmem'
    have := (h.ramOk par hpar).2.1
    rw [hfst] at this
    exact hnoram this
  unfold solicitaRam disparaRam
  apply inv_disparaRamAux _ _ rfl
  refine ⟨?_, ?_, ?_, ?_, ?_, ?_, ?_, ?_, ?_⟩
  · -- conserva
    have hsum := suma_update st.procs st.config.numProcesos p
      ({ st.procs p with fase := .esperaMemoria }) hp
    have hc := h.conserva
    simp only [sumaRetenida] at hc ⊢
    simp only [pon]
    try dsimp only
    try dsimp only at hsum
    omega
  · -- vivaRet
    intro i hv
    simp only [pon] at hv ⊢
    try dsimp only at hv ⊢
    by_cases hip : i = p
    · subst hip
      rw [Function.update_same] at hv
      simp [viva] at hv
    · rw [Function.update_noteq hip] at hv ⊢
      exact h.vivaRet i hv
  · -- muertaRet
    intro i hv
    simp only [pon] at hv ⊢
    try dsimp only at hv ⊢
    by_cases hip : i = p
    · subst hip
      rw [Function.update_same]
      try dsimp only
      exact hret0
    · rw [Function.update_noteq hip] at hv ⊢
      exact h.muertaRet i hv
  · -- conInstr
    intro i hv
    simp only [pon] at hv ⊢
    try dsimp only at hv ⊢
    by_cases hip : i = p
    · subst hip
      rw [Function.update_same]
      try dsimp only
      exact hinstr
    · rw [Function.update_noteq hip] at hv ⊢
      exact h.conInstr i hv
  · -- evPid
    intro e he
    exact h.evPid e he
  · -- ramOk
    intro par hpar
    simp only [pon]
    try dsimp only
    rcases List.mem_append.mp hpar with hpar | hpar
    · obtain ⟨h1, h2, h3⟩ := h.ramOk par hpar
      have hne : par.1 ≠ p := by
        intro hcontra
        rw [hcontra] at h2
        exact hnoram h2
      rw [Function.update_noteq hne]
      exact ⟨h1, h2, h3⟩
    · simp only [List.mem_singleton] at hpar
      subst hpar
      rw [Function.update_same]
      exact ⟨hp, rfl, hmem⟩
  · -- ramNodup
    simp only [pon]
    try dsimp only
    rw [List.map_append]
    refine List.Nodup.append h.ramNodup (List.nodup_singleton p) ?_
    intro x hx hx'
    simp only [List.map_cons, List.map_nil, List.mem_singleton] at hx'
    subst hx'
    exact hpm hx
  · -- cpuOk
    intro w hw
    obtain ⟨h1, h2⟩ := h.cpuOk w hw
    have hne : w ≠ p := by
      intro hcontra
      rw [hcontra] at h2
      exact hnocpu h2
    simp only [pon]
    try dsimp only
    rw [Function.update_noteq hne]
    exact ⟨h1, h2⟩
  · -- cpuNodup
    exact h.cpuNodup

/-- The recorded turnaround list is irrelevant to the invariant. -/
theorem invQC_tiempos (st : Estado) (ts : List ℚ)
    (h : InvQC st st.colaRam st.colaCpu) :
    InvQC { st with tiempos := ts } ({ st with tiempos := ts } : Estado).colaRam
      ({ st with tiempos := ts } : Estado).colaCpu :=
  ⟨h.conserva, h.vivaRet, h.muertaRet, h.conInstr, h.evPid, h.ramOk, h.ramNodup,
    h.cpuOk, h.cpuNodup⟩

theorem depositaRam_config (st : Estado) (p : ℕ) :
    (depositaRam st p).config = st.config := by
  unfold depositaRam disparaRam
  rw [disparaRamAux_config]
  rfl

theorem liberaCpu_config (st : Estado) (p : ℕ) :
    (liberaCpu st p).config = st.config := by
  unfold liberaCpu disparaCpu
  rw [disparaCpuAux_config]
  rfl

theorem solicitaRam_config (st : Estado) (p a : ℕ) :
    (solicitaRam st p a).config = st.config := by
  unfold solicitaRam disparaRam
  rw [disparaRamAux_config]
  rfl

theorem solicitaCpu_config (st : Estado) (p : ℕ) :
    (solicitaCpu st p).config = st.config := by
  unfold solicitaCpu disparaCpu
  rw [disparaCpuAux_config]
  rfl

/-- Releasing the CPU only clears the ghost possession marker of the
releasing process when it is not itself in the wait queue. -/
theorem liberaCpu_procs_self (st : Estado) (p : ℕ) (hnot : p ∉ st.colaCpu) :
    (liberaCpu st p).procs p = { st.procs p with tieneCpu := false } := by
  unfold liberaCpu disparaCpu
  simp only [pon]
  try dsimp only
  rw [disparaCpuAux_ignora _ _ _ hnot]
  try dsimp only
  rw [Function.update_same]

/-- `RAM.put` at termination preserves the invariant: the level regains
exactly the amount the live process held, atomically with its transition to
TERMINATED, and the queue scan redistributes the freed units in FIFO
order. -/
theorem inv_depositaRam (st : Estado) (p : ℕ) (hp : p < st.config.numProcesos)
    (h : InvQC st st.colaRam st.colaCpu)
    (hviva : viva (st.procs p).fase = true)
    (hnoram : (st.procs p).fase ≠ .esperaMemoria)
    (hnocpu : (st.procs p).fase ≠ .esperaCpu) :
    Inv (depositaRam st p) := by
  have hretmem : (st.procs p).retenida = (st.procs p).memoria := h.vivaRet p hviva
  unfold depositaRam disparaRam
  apply inv_disparaRamAux _ _ rfl
  refine ⟨?_, ?_, ?_, ?_, ?_, ?_, ?_, ?_, ?_⟩
  · -- conserva
    have hsum := suma_update st.procs st.config.numProcesos p
      ({ st.procs p with
         retenida := (st.procs p).retenida - (st.procs p).memoria
         fase := .terminado }) hp
    have hc := h.conserva
    simp only [sumaRetenida] at hc ⊢
    simp only [pon]
    try dsimp only
    try dsimp only at hsum
    omega
  · -- vivaRet
    intro i hv
    simp only [pon] at hv ⊢
    try dsimp only at hv ⊢
    by_cases hip : i = p
    · subst hip
      rw [Function.update_same] at hv
      simp [viva] at hv
    · rw [Function.update_noteq hip] at hv ⊢
      exact h.vivaRet i hv
  · -- muertaRet
    intro i hv
    simp only [pon] at hv ⊢
    try dsimp only at hv ⊢
    by_cases hip : i = p
    · subst hip
      rw [Function.update_same]
      try dsimp only
      omega
    · rw [Function.update_noteq hip] at hv ⊢
      exact h.muertaRet i hv
  · -- conInstr
    intro i hv
    simp only [pon] at hv ⊢
    try dsimp only at hv ⊢
    by_cases hip : i = p
    · subst hip
      rw [Function.update_same] at hv
      simp [conInstrucciones] at hv
    · rw [Function.update_noteq hip] at hv ⊢
      exact h.conInstr i hv
  · -- evPid
    intro e he
    exact h.evPid e he
  · -- ramOk
    intro par hpar
    obtain ⟨h1, h2, h3⟩ := h.ramOk par hpar
    have hne : par.1 ≠ p := by
      intro hcontra
      rw [hcontra] at h2
      exact hnoram h2
    simp only [pon]
    try dsimp only
    rw [Function.update_noteq hne]
    exact ⟨h1, h2, h3⟩
  · -- ramNodup
    exact h.ramNodup
  · -- cpuOk
    intro w hw
    obtain ⟨h1, h2⟩ := h.cpuOk w hw
    have hne : w ≠ p := by
      intro hcontra
      rw [hcontra] at h2
      exact hnocpu h2
    simp only [pon]
    try dsimp only
    rw [Function.update_noteq hne]
    exact ⟨h1, h2⟩
  · -- cpuNodup
    exact h.cpuNodup

/-- Releasing the CPU never changes any remaining-instruction count. -/
theorem liberaCpu_instrucciones (st : Estado) (p q : ℕ) :
    ((liberaCpu st p).procs q).instrucciones = (st.procs q).instrucciones := by
  unfold liberaCpu disparaCpu
  rw [disparaCpuAux_instrucciones]
  simp only [pon]
  try dsimp only
  by_cases h : q = p
  · subst h
    rw [Function.update_same]
  · rw [Function.update_noteq h]

/-- A process that has just requested the CPU is either still waiting or
already granted once the trigger scan finishes. -/
theorem solicitaCpu_fase (st : Estado) (p : ℕ) :
    ((solicitaCpu st p).procs p).fase = Fase.esperaCpu
      ∨ ((solicitaCpu st p).procs p).fase = Fase.cpuConcedida := by
  unfold solicitaCpu disparaCpu
  apply disparaCpuAux_fase_espera
  simp only [pon]
  try dsimp only
  rw [Function.update_same]
  exact Or.inl rfl

/-- The wake handler preserves the invariant, whatever the phase of the
woken process. -/
theorem inv_atiende (st : Estado) (p : ℕ) (hp : p < st.config.numProcesos)
    (h : InvQC st st.colaRam st.colaCpu) : Inv (atiende st p) := by
  cases hf : (st.procs p).fase with
  | inicio =>
    simp only [atiende, hf, saca]
    try dsimp only
    refine inv_programa _ _ _ ?_ ?_
    · exact hp
    · apply invQC_pon
      · exact hp
      · exact ⟨h.conserva, h.vivaRet, h.muertaRet, h.conInstr, h.evPid, h.ramOk,
          h.ramNodup, h.cpuOk, h.cpuNodup⟩
      · try dsimp only
        try rfl
      · intro hv
        simp [viva] at hv
      · intro _
        try dsimp only
        exact h.muertaRet p (by rw [hf]; rfl)
      · intro hv
        simp [conInstrucciones] at hv
      · try dsimp only
        rw [hf]
        decide
      · try dsimp only
        rw [hf]
        decide
  | llegando =>
    simp only [atiende, hf, saca]
    try dsimp only
    refine inv_solicitaRam _ p _ ?_ ?_ ?_ ?_ ?_ ?_ ?_
    · exact hp
    · apply invQC_pon
      · exact hp
      · exact ⟨h.conserva, h.vivaRet, h.muertaRet, h.conInstr, h.evPid, h.ramOk,
          h.ramNodup, h.cpuOk, h.cpuNodup⟩
      · try dsimp only
        try rfl
      · intro hv
        try dsimp only at hv
        try rw [hf] at hv
        simp [viva] at hv
      · intro _
        try dsimp only
        exact h.muertaRet p (by rw [hf]; rfl)
      · intro hv
        try dsimp only at hv
        try rw [hf] at hv
        simp [conInstrucciones] at hv
      · try dsimp only
        rw [hf]
        decide
      · try dsimp only
        rw [hf]
        decide
    · -- the requested amount is the drawn demand
      simp only [pon]
      try dsimp only
      rw [Function.update_same]
    · -- positive instruction total
      simp only [pon]
      try dsimp only
      rw [Function.update_same]
      try dsimp only
      exact (one_le_randintDraw_toNat _).1
    · -- still dead
      simp only [pon]
      try dsimp only
      rw [Function.update_same]
      try dsimp only
      try rw [hf]
      try rfl
    · simp only [pon]
      try dsimp only
      rw [Function.update_same]
      try dsimp only
      try rw [hf]
      decide
    · simp only [pon]
      try dsimp only
      rw [Function.update_same]
      try dsimp only
      try rw [hf]
      decide
  | esperaMemoria =>
    simp only [atiende, hf]
    exact h
  | memoriaLista =>
    have hpos : 1 ≤ (st.procs p).instrucciones := h.conInstr p (by rw [hf]; rfl)
    simp only [atiende, hf]
    try dsimp only
    split
    next _ =>
      exact inv_solicitaCpu st p hp h (by rw [hf]; rfl) (by rw [hf]; decide)
        (by rw [hf]; decide)
    next hneg =>
      exfalso
      omega
  | esperaCpu =>
    simp only [atiende, hf]
    exact h
  | cpuConcedida =>
    simp only [atiende, hf]
    try dsimp only
    refine inv_programa _ _ _ ?_ ?_
    · exact hp
    · apply invQC_pon
      · exact hp
      · exact ⟨h.conserva, h.vivaRet, h.muertaRet, h.conInstr, h.evPid, h.ramOk,
          h.ramNodup, h.cpuOk, h.cpuNodup⟩
      · try dsimp only
        try rfl
      · intro _
        try dsimp only
        exact h.vivaRet p (by rw [hf]; rfl)
      · intro hv
        simp [viva] at hv
      · intro hv
        simp [conInstrucciones] at hv
      · rw [hf]
        decide
      · rw [hf]
        decide
  | ejecutando =>
    have hnotq : p ∉ st.colaCpu := by
      intro hmem
      have := (h.cpuOk p hmem).2
      rw [hf] at this
      cases this
    simp only [atiende, hf, saca]
    try dsimp only
    split
    next hr0 =>
      -- TERMINATED: RAM.put, record turnaround, release the CPU
      apply inv_liberaCpu
      · try dsimp only
        rw [depositaRam_config]
        try dsimp only
        exact hp
      · apply invQC_tiempos
        apply inv_depositaRam
        · try dsimp only
          exact hp
        · apply invQC_pon
          · exact hp
          · exact h
          · try dsimp only
            try rfl
          · intro _
            try dsimp only
            exact h.vivaRet p (by rw [hf]; rfl)
          · intro hv
            try dsimp only at hv
            try rw [hf] at hv
            simp [viva] at hv
          · intro hv
            try dsimp only at hv
            try rw [hf] at hv
            simp [conInstrucciones] at hv
          · rw [hf]
            decide
          · rw [hf]
            decide
        · -- still live at the put
          simp only [pon]
          try dsimp only
          rw [Function.update_same]
          try dsimp only
          try rw [hf]
          try rfl
        · simp only [pon]
          try dsimp only
          rw [Function.update_same]
          try dsimp only
          try rw [hf]
          decide
        · simp only [pon]
          try dsimp only
          rw [Function.update_same]
          try dsimp only
          try rw [hf]
          decide
    next hr0 =>
      split
      next hdec =>
        -- WAITING: the I/O timeout is scheduled with the CPU still held
        refine inv_programa _ _ _ ?_ ?_
        · try dsimp only
          exact hp
        · apply invQC_pon
          · try dsimp only
            exact hp
          · exact ⟨h.conserva, h.vivaRet, h.muertaRet, h.conInstr, h.evPid,
              h.ramOk, h.ramNodup, h.cpuOk, h.cpuNodup⟩
          · try dsimp only
            try rfl
          · intro _
            try dsimp only
            exact h.vivaRet p (by rw [hf]; rfl)
          · intro hv
            try dsimp only at hv
            simp [viva] at hv
          · intro _
            try dsimp only
            exact Nat.pos_of_ne_zero hr0
          · try dsimp only
            rw [hf]
            decide
          · try dsimp only
            rw [hf]
            decide
      next hdec =>
        -- back to READY: release, then rejoin the wait queue at the back
        refine inv_solicitaCpu _ p ?_ ?_ ?_ ?_ ?_
        · rw [liberaCpu_config]
          try dsimp only
          exact hp
        · refine inv_liberaCpu _ p ?_ ?_
          · try dsimp only
            exact hp
          · apply invQC_pon
            · try dsimp only
              exact hp
            · exact ⟨h.conserva, h.vivaRet, h.muertaRet, h.conInstr, h.evPid,
                h.ramOk, h.ramNodup, h.cpuOk, h.cpuNodup⟩
            · try dsimp only
              try rfl
            · intro _
              try dsimp only
              exact h.vivaRet p (by rw [hf]; rfl)
            · intro hv
              try dsimp only at hv
              try rw [hf] at hv
              simp [viva] at hv
            · intro hv
              try dsimp only at hv
              try rw [hf] at hv
              simp [conInstrucciones] at hv
            · try dsimp only
              rw [hf]
              decide
            · try dsimp only
              rw [hf]
              decide
        · rw [liberaCpu_procs_self]
          · simp only [pon]
            try dsimp only
            rw [Function.update_same]
            try dsimp only
            try rw [hf]
            try rfl
          · simp only [pon]
            try dsimp only
            exact hnotq
        · rw [liberaCpu_procs_self]
          · simp only [pon]
            try dsimp only
            rw [Function.update_same]
            try dsimp only
            try rw [hf]
            decide
          · simp only [pon]
            try dsimp only
            exact hnotq
        · rw [liberaCpu_procs_self]
          · simp only [pon]
            try dsimp only
            rw [Function.update_same]
            try dsimp only
            try rw [hf]
            decide
          · simp only [pon]
            try dsimp only
            exact hnotq
  | esperaIo =>
    have hnotq : p ∉ st.colaCpu := by
      intro hmem
      have := (h.cpuOk p hmem).2
      rw [hf] at this
      cases this
    have hpos : 1 ≤ (st.procs p).instrucciones := h.conInstr p (by rw [hf]; rfl)
    have hlib := liberaCpu_procs_self st p hnotq
    simp only [atiende, hf]
    try dsimp only
    rw [hlib]
    try dsimp only
    split
    next _ =>
      refine inv_solicitaCpu _ p ?_ (inv_liberaCpu st p hp h) ?_ ?_ ?_
      · rw [liberaCpu_config]
        exact hp
      · rw [hlib]
        try dsimp only
        rw [hf]
        rfl
      · rw [hlib]
        try dsimp only
        rw [hf]
        decide
      · rw [hlib]
        try dsimp only
        rw [hf]
        decide
    next hneg =>
      exfalso
      omega
  | terminado =>
    simp only [atiende, hf]
    exact h

/-- The configuration is never modified by a wake handler. -/
theorem atiende_config (st : Estado) (p : ℕ) :
    (atiende st p).config = st.config := by
  cases hf : (st.procs p).fase with
  | inicio =>
    simp only [atiende, hf, saca]
    rfl
  | llegando =>
    simp only [atiende, hf, saca]
    rw [solicitaRam_config]
    rfl
  | esperaMemoria =>
    simp only [atiende, hf]
  | memoriaLista =>
    simp only [atiende, hf]
    split
    · rw [solicitaCpu_config]
    · rfl
  | esperaCpu =>
    simp only [atiende, hf]
  | cpuConcedida =>
    simp only [atiende, hf]
    rfl
  | ejecutando =>
    simp only [atiende, hf, saca]
    split
    · rw [liberaCpu_config]
      try dsimp only
      rw [depositaRam_config]
      rfl
    · split
      · rfl
      · rw [solicitaCpu_config, liberaCpu_config]
        rfl
  | esperaIo =>
    simp only [atiende, hf]
    split
    · rw [solicitaCpu_config, liberaCpu_config]
    · simp only [pon]
      try dsimp only
      rw [liberaCpu_config]
  | terminado =>
    simp only [atiende, hf]

theorem paso_config (st : Estado) : (paso st).config = st.config := by
  unfold paso
  cases hpop : popMin st.eventos with
  | none => rfl
  | some pr =>
    obtain ⟨e, resto⟩ := pr
    rw [atiende_config]

theorem pasos_config (n : ℕ) (st : Estado) : (pasos n st).config = st.config := by
  induction n generalizing st with
  | zero => rfl
  | succ n ih =>
    show (pasos n (paso st)).config = st.config
    rw [ih, paso_config]

/-- One event step preserves the invariant. -/
theorem inv_paso (st : Estado) (h : Inv st) : Inv (paso st) := by
  unfold paso
  cases hpop : popMin st.eventos with
  | none => exact h
  | some pr =>
    obtain ⟨e, resto⟩ := pr
    obtain ⟨hemem, hsub⟩ := popMin_spec st.eventos e resto hpop
    have h0 : InvQC st st.colaRam st.colaCpu := h
    have hpid : e.pid < st.config.numProcesos := h0.evPid e hemem
    apply inv_atiende
    · exact hpid
    · exact ⟨h0.conserva, h0.vivaRet, h0.muertaRet, h0.conInstr,
        fun ev hev => h0.evPid ev (hsub ev hev), h0.ramOk, h0.ramNodup,
        h0.cpuOk, h0.cpuNodup⟩

theorem inv_pasos (n : ℕ) (st : Estado) (h : Inv st) : Inv (pasos n st) := by
  induction n generalizing st with
  | zero => exact h
  | succ n ih =>
    show Inv (pasos n (paso st))
    exact ih (paso st) (inv_paso st h)

/-- The initial state of `ejecutar_simulacion` satisfies the invariant: the
pool is full, nothing is held, the queues are empty, and the creation events
target the created processes. -/
theorem inv_inicial (mt : ℕ → ℚ) (c : Config) : Inv (inicial mt c) := by
  refine ⟨?_, ?_, ?_, ?_, ?_, ?_, ?_, ?_, ?_⟩
  · simp [inicial, sumaRetenida]
  · intro i hv
    simp [inicial, viva] at hv
  · intro i _
    rfl
  · intro i hv
    simp [inicial, conInstrucciones] at hv
  · intro e he
    simp only [inicial, List.mem_map, List.mem_range] at he
    obtain ⟨i, hi, rfl⟩ := he
    exact hi
  · intro par hpar
    simp [inicial] at hpar
  · simp [inicial]
  · intro q hq
    simp [inicial] at hq
  · simp [inicial]

end Simulador

namespace Prueba

/-!
Embedding of `src/prueba.py`.  Differences from `simulador.py`:
the RAM capacity (100) and the CPU count (1) are hard-coded (lines 30-31);
a single generator `generar_procesos` (lines 34-37) spawns process `i`, with
its instruction total drawn by the generator itself, and then delays one
exponential gap, so spawn times are cumulative; each process records its
arrival at its own start (line 7, before requesting memory); the I/O delay is
the constant 3 (line 21); the decision draw happens only when instructions
remain (short-circuit on line 20); memory is released after the loop through
`yield ram.put(...)` (line 24) and the turnaround is appended on resumption
(line 25).
-/

/-- Phases of `proceso` (lines 6-25) plus a dormant phase for processes the
generator has not created yet. -/
inductive Fase where
  | noCreado      -- not yet spawned by the generator
  | inicio        -- spawned; on wake: record arrival, draw memory, ram.get (lines 7-11)
  | esperaMemoria -- suspended in the RAM get queue (line 11)
  | memoriaLista  -- RAM granted, wake pending; on wake: enter the while loop (line 14)
  | esperaCpu     -- suspended in the CPU wait queue (line 15)
  | cpuConcedida  -- CPU granted, wake pending; on wake: yield env.timeout(1) (line 17)
  | ejecutando    -- quantum timeout pending (line 17)
  | esperaIo      -- I/O timeout pending (line 21); the CPU is NOT released here
  | poniendoRam   -- yield ram.put(...) resumption pending (line 24)
  | terminado     -- generator finished (after line 25)
deriving DecidableEq, Repr

structure Proc where
  fase : Fase
  llegada : ℚ := 0
  memoria : ℕ := 0
  instrucciones : ℕ := 0
  retenida : ℕ := 0
  tieneCpu : Bool := false
deriving DecidableEq, Repr

/-- State of `correr_simulacion` (lines 27-41).  Actor ids `0 ≤ p < n` are
the processes; actor id `n` is the generator, whose loop counter is
`genIdx`. -/
structure Estado where
  numProcesos : ℕ
  intervalo : ℚ
  now : ℚ
  nextSeq : ℕ
  eventos : List Ev
  procs : ℕ → Proc
  genIdx : ℕ
  nivel : ℕ
  colaRam : List (ℕ × ℕ)
  enUso : ℕ
  colaCpu : List ℕ
  flujo : ℕ → ℚ
  cursor : ℕ
  tiempos : List ℚ

def saca (st : Estado) : ℚ × Estado :=
  (st.flujo st.cursor, { st with cursor := st.cursor + 1 })

def programa (st : Estado) (d : ℚ) (p : ℕ) : Estado :=
  { st with eventos := st.eventos ++ [⟨st.now + d, st.nextSeq, p⟩],
            nextSeq := st.nextSeq + 1 }

def pon (st : Estado) (p : ℕ) (pr : Proc) : Estado :=
  { st with procs := Function.update st.procs p pr }

def disparaRamAux : List (ℕ × ℕ) → Estado → Estado
  | [], st => st
  | (p, a) :: resto, st =>
    if a ≤ st.nivel then
      let pr := st.procs p
      disparaRamAux resto
        (programa (pon { st with nivel := st.nivel - a } p
          { pr with retenida := pr.retenida + a, fase := .memoriaLista }) 0 p)
    else
      { st with colaRam := (p, a) :: resto }

def disparaRam (st : Estado) : Estado :=
  disparaRamAux st.colaRam { st with colaRam := [] }

/-- `ram.get(a)` (line 11). -/
def solicitaRam (st : Estado) (p : ℕ) (a : ℕ) : Estado :=
  disparaRam (pon { st with colaRam := st.colaRam ++ [(p, a)] } p
    { st.procs p with fase := .esperaMemoria })

/-- `yield ram.put(m)` (line 24): the put succeeds at once (the pool can
always take back owned units); the resumption is scheduled like any
triggered event. -/
def depositaRam (st : Estado) (p : ℕ) : Estado :=
  let pr := st.procs p
  let st := disparaRam (pon { st with nivel := st.nivel + pr.memoria } p
    { pr with retenida := pr.retenida - pr.memoria, fase := .poniendoRam })
  programa st 0 p

def disparaCpuAux : List ℕ → Estado → Estado
  | [], st => st
  | p :: resto, st =>
    if st.enUso < 1 then    -- capacity hard-coded to 1 (line 31)
      disparaCpuAux resto
        (programa (pon { st with enUso := st.enUso + 1 } p
          { st.procs p with tieneCpu := true, fase := .cpuConcedida }) 0 p)
    else
      { st with colaCpu := p :: resto }

def disparaCpu (st : Estado) : Estado :=
  disparaCpuAux st.colaCpu { st with colaCpu := [] }

def solicitaCpu (st : Estado) (p : ℕ) : Estado :=
  disparaCpu (pon { st with colaCpu := st.colaCpu ++ [p] } p
    { st.procs p with fase := .esperaCpu })

def liberaCpu (st : Estado) (p : ℕ) : Estado :=
  disparaCpu (pon { st with enUso := st.enUso - 1 } p
    { st.procs p with tieneCpu := false })

/-- Handler for the generator `generar_procesos` (lines 34-37): spawn process
`genIdx` (its instruction total drawn first, as the call argument), then
delay one exponential gap and repeat; after `numProcesos` iterations the
generator ends. -/
def atiendeGen (st : Estado) : Estado :=
  if st.genIdx < st.numProcesos then
    let p := st.genIdx
    let (v1, st) := saca st
    let ins := (randintDraw 1 10 v1).toNat
    let st := programa (pon st p { fase := .inicio, instrucciones := ins }) 0 p
    let (v2, st) := saca st
    let gap := expovariateDraw (1 / st.intervalo) v2
    let st := programa st gap st.numProcesos
    { st with genIdx := st.genIdx + 1 }
  else
    st

/-- Handler for a wake of process `p` (lines 6-25). -/
def atiendeProc (st : Estado) (p : ℕ) : Estado :=
  let pr := st.procs p
  match pr.fase with
  | .noCreado => st
  | .inicio =>
    -- lines 7-11: llegada = env.now; draw memory; ram.get
    let (v, st) := saca st
    let m := (randintDraw 1 10 v).toNat
    solicitaRam (pon st p { pr with llegada := st.now, memoria := m }) p m
  | .esperaMemoria => st
  | .memoriaLista =>
    -- line 14: while instrucciones > 0 / line 15: cpu.request()
    if 0 < pr.instrucciones then solicitaCpu st p
    else depositaRam st p      -- loop skipped: straight to ram.put (line 24)
  | .esperaCpu => st
  | .cpuConcedida =>
    programa (pon st p { pr with fase := .ejecutando }) 1 p
  | .ejecutando =>
    -- lines 17-21: quantum end
    let resto := pr.instrucciones - min 3 pr.instrucciones
    let st := pon st p { pr with instrucciones := resto }
    if 0 < resto then
      -- line 20: decision drawn only when instructions remain
      let (v, st) := saca st
      if randintDraw 1 21 v = 1 then
        -- line 21: yield env.timeout(3) INSIDE the with block: fixed delay,
        -- no draw for the duration, CPU still held
        programa (pon st p { st.procs p with fase := .esperaIo }) 3 p
      else
        solicitaCpu (liberaCpu st p) p
    else
      -- loop exits: with-block releases the CPU, then ram.put (line 24)
      depositaRam (liberaCpu st p) p
  | .esperaIo =>
    let st := liberaCpu st p
    if 0 < (st.procs p).instrucciones then solicitaCpu st p
    else depositaRam st p
  | .poniendoRam =>
    -- line 25: tiempos.append(env.now - llegada)
    pon { st with tiempos := st.tiempos ++ [st.now - pr.llegada] } p
      { pr with fase := .terminado }
  | .terminado => st

def atiende (st : Estado) (p : ℕ) : Estado :=
  if p = st.numProcesos then atiendeGen st else atiendeProc st p

def paso (st : Estado) : Estado :=
  match popMin st.eventos with
  | none => st
  | some (e, resto) => atiende { st with now := e.time, eventos := resto } e.pid

def pasos : ℕ → Estado → Estado
  | 0, st => st
  | n + 1, st => pasos n (paso st)

/-- Initial state of `correr_simulacion` (lines 27-40): seed 42, a full
100-unit container, a single CPU, and one initialisation event for the
generator process. -/
def inicial (mt42 : ℕ → ℚ) (np : ℕ) (intervalo : ℚ) : Estado :=
  { numProcesos := np
    intervalo := intervalo
    now := 0
    nextSeq := 1
    eventos := [⟨0, 0, np⟩]
    procs := fun _ => { fase := .noCreado }
    genIdx := 0
    nivel := 100
    colaRam := []
    enUso := 0
    colaCpu := []
    flujo := mt42
    cursor := 0
    tiempos := [] }

/-- Turnaround times of a `correr_simulacion` run executed for `fuel`
events.  `g` is the caller's pre-existing global generator state: line 28
(`random.seed(42)`) discards it. -/
def resultado (mt42 : ℕ → ℚ) (_g : EstadoRandom) (np : ℕ) (intervalo : ℚ)
    (fuel : ℕ) : List ℚ :=
  (pasos fuel (inicial mt42 np intervalo)).tiempos

end Prueba

/-!  ### Statistics (`np.mean` / `np.std`) and the public entry points  -/

/-- Specification-side arithmetic mean of a list of turnaround times. -/
def mediaPoblacional (xs : List ℚ) : ℚ := xs.sum / xs.length

/-- Specification-side population variance (`ddof = 0`). -/
def varianzaPoblacional (xs : List ℚ) : ℚ :=
  (xs.map (fun x => (x - mediaPoblacional xs) ^ 2)).sum / xs.length

/-- `np.mean`: on an empty array numpy produces NaN (with a warning);
NaN is modelled as `none`. -/
def npMean (xs : List ℚ) : Option ℚ :=
  if xs = [] then none else some (xs.sum / xs.length)

/-- `np.std` (population standard deviation, the square root of the mean of
squared deviations); NaN on an empty array is modelled as `none`. -/
noncomputable def npStd (xs : List ℚ) : Option ℝ :=
  if xs = [] then none
  else some (Real.sqrt ((varianzaPoblacional xs : ℚ) : ℝ))

theorem varianzaPoblacional_nonneg (xs : List ℚ) : 0 ≤ varianzaPoblacional xs := by
  unfold varianzaPoblacional
  apply div_nonneg
  · apply List.sum_nonneg
    intro x hx
    simp only [List.mem_map] at hx
    obtain ⟨y, _, rfl⟩ := hx
    positivity
  · positivity

/-- `ejecutar_simulacion` (simulador.py lines 69-105): reset the global
time list, reseed with the constant 42 (discarding the caller's generator
state `g`), run, and return `(np.mean(...), np.std(...))` of the harvested
turnaround times — with no empty-run guard. -/
noncomputable def Simulador.ejecutar_simulacion (mt42 : ℕ → ℚ) (g : EstadoRandom)
    (numProcesos : ℕ) (intervaloLlegada : ℚ) (memoriaTotal numCpus velocidadCpu : ℕ)
    (fuel : ℕ) : Option ℚ × Option ℝ :=
  (npMean (Simulador.resultado mt42 g
      ⟨numProcesos, intervaloLlegada, memoriaTotal, numCpus, velocidadCpu⟩ fuel),
   npStd (Simulador.resultado mt42 g
      ⟨numProcesos, intervaloLlegada, memoriaTotal, numCpus, velocidadCpu⟩ fuel))

/-- `correr_simulacion` (prueba.py lines 27-41): reseed with 42 (discarding
`g`), run, and return `(np.mean(tiempos) if tiempos else 0,
np.std(tiempos) if tiempos else 0)`. -/
noncomputable def Prueba.correr_simulacion (mt42 : ℕ → ℚ) (g : EstadoRandom)
    (numProcesos : ℕ) (intervalo : ℚ) (fuel : ℕ) : ℚ × ℝ :=
  (if Prueba.resultado mt42 g numProcesos intervalo fuel = [] then 0
   else mediaPoblacional (Prueba.resultado mt42 g numProcesos intervalo fuel),
   if Prueba.resultado mt42 g numProcesos intervalo fuel = [] then 0
   else Real.sqrt
     ((varianzaPoblacional (Prueba.resultado mt42 g numProcesos intervalo fuel) : ℚ) : ℝ))

/-- The only rejection that can happen before any simulation event runs:
`ValueError` raised by the `simpy.Container` / `simpy.Resource` constructors
(lines 82-83 of simulador.py) on a non-positive capacity.  There is no
validation in `ejecutar_simulacion` itself. -/
inductive ErrorValor where
  | capacidadContenedor   -- simpy Container: capacity must be > 0
  | capacidadRecurso      -- simpy Resource: capacity must be > 0
deriving DecidableEq, Repr

/-- `ejecutar_simulacion` with the library constructor checks made explicit,
over the raw integer arguments a caller could pass: `range` of a
non-positive process count is simply empty, the container is built (and
checked) before the resource, and nothing checks `num_procesos` or
`intervalo_llegada`. -/
def Simulador.ejecutar_simulacion_cruda (mt42 : ℕ → ℚ) (g : EstadoRandom)
    (numProcesos : ℤ) (intervaloLlegada : ℚ) (memoriaTotal numCpus : ℤ)
    (velocidadCpu : ℕ) (fuel : ℕ) : Except ErrorValor (List ℚ) :=
  if memoriaTotal ≤ 0 then .error .capacidadContenedor
  else if numCpus ≤ 0 then .error .capacidadRecurso
  else .ok (Simulador.resultado mt42 g
    ⟨numProcesos.toNat, intervaloLlegada, memoriaTotal.toNat, numCpus.toNat, velocidadCpu⟩
    fuel)

/-!  ### Run stability: once the event queue is empty the state is final  -/

theorem Simulador.paso_of_eventos_nil {st : Simulador.Estado}
    (h : st.eventos = []) : Simulador.paso st = st := by
  unfold Simulador.paso
  rw [h]
  rfl

theorem Simulador.pasos_of_eventos_nil {st : Simulador.Estado}
    (h : st.eventos = []) : ∀ n, Simulador.pasos n st = st := by
  intro n
  induction n with
  | zero => rfl
  | succ n ih =>
    show Simulador.pasos n (Simulador.paso st) = st
    rw [Simulador.paso_of_eventos_nil h, ih]

theorem Simulador.pasos_add (m n : ℕ) (st : Simulador.Estado) :
    Simulador.pasos (m + n) st = Simulador.pasos n (Simulador.pasos m st) := by
  induction m generalizing st with
  | zero =>
    rw [Nat.zero_add]
    rfl
  | succ m ih =>
    rw [Nat.succ_add]
    show Simulador.pasos (m + n) (Simulador.paso st)
      = Simulador.pasos n (Simulador.pasos m (Simulador.paso st))
    exact ih (Simulador.paso st)

/-!  ### Concrete draw streams for the scenario runs  -/

/-- Degenerate stream: every raw draw is 0 (unit draw 0, `randint` low end). -/
def flujoCero : ℕ → ℚ := fun _ => 0

/-- A caller's arbitrary pre-existing generator state (discarded by
`random.seed(42)`). -/
def gCero : EstadoRandom := ⟨flujoCero, 0⟩

/-- A different pre-existing generator state, to witness seed independence. -/
def gUno : EstadoRandom := ⟨fun _ => 1, 5⟩

/-- Draws for Scenario 1 of the specification: arrival gap 1, memory demand
5 (unit draw 2/5), instruction total 4 (unit draw 3/10), branch decision 11
(unit draw 1/2, not the I/O sentinel 1). -/
def flujoC3 : ℕ → ℚ :=
  fun n => if n = 0 then 1 else if n = 1 then 2/5 else if n = 2 then 3/10
    else if n = 3 then 1/2 else 0

/-- Scenario 1's configuration: one process, memory 10, one CPU, quantum
speed 3 (drawn memory demand 5 and instruction total 4 come from the
stream). -/
def confC3 : Simulador.Config := ⟨1, 1, 10, 1, 3⟩

/-- Draws exhibiting the I/O branch: arrival gap 0, memory demand 1,
instruction total 6 (unit draw 1/2), decision 1 (the I/O sentinel),
I/O duration draw 0 (delay 1). -/
def flujoC2 : ℕ → ℚ :=
  fun n => if n = 2 then 1/2 else 0

/-- Two-process arrival draws for simulador.py: gaps 1 and 2, every later
draw at its low end. -/
def flujoC4s : ℕ → ℚ := fun n => if n = 0 then 1 else if n = 1 then 2 else 0

/-- Two-process configuration for the arrival demonstration. -/
def confC4s : Simulador.Config := ⟨2, 1, 10, 1, 3⟩

/-- Two-process draws for prueba.py's generator: instruction totals 1,
gaps 5 then 7, memory demands 1. -/
def flujoC4p : ℕ → ℚ := fun n => if n = 1 then 5 else if n = 4 then 7 else 0

/-- Draws reaching prueba.py's I/O branch: instruction total 6 (unit draw
1/2), gap 0, memory demand 1, decision 1; the next unconsumed raw value is
1/4, whose uniform-[1,3] image would be 3/2. -/
def flujoC7p : ℕ → ℚ := fun n => if n = 0 then 1/2 else if n = 4 then 1/4 else 0

/-!  ### Claim C1  -/

/-- Claim C1: memory conservation.  In every run of `ejecutar_simulacion`,
after any number of processed events, the pool's available units plus the
memory held by the live (admitted, not yet terminated) processes equal the
configured capacity; moreover every live process holds exactly its drawn
demand — the amount it acquired at NEW and will release at TERMINATED — and
every non-live process holds nothing. -/
theorem c1_conservacion (mt : ℕ → ℚ) (c : Simulador.Config) (fuel : ℕ) :
    (Simulador.pasos fuel (Simulador.inicial mt c)).nivel
      + Finset.sum
          ((Finset.range c.numProcesos).filter
            (fun i => Simulador.viva
              ((Simulador.pasos fuel (Simulador.inicial mt c)).procs i).fase = true))
          (fun i => ((Simulador.pasos fuel (Simulador.inicial mt c)).procs i).retenida)
      = c.memoriaTotal
    ∧ (∀ i, Simulador.viva
          ((Simulador.pasos fuel (Simulador.inicial mt c)).procs i).fase = true →
        ((Simulador.pasos fuel (Simulador.inicial mt c)).procs i).retenida
          = ((Simulador.pasos fuel (Simulador.inicial mt c)).procs i).memoria)
    ∧ (∀ i, Simulador.viva
          ((Simulador.pasos fuel (Simulador.inicial mt c)).procs i).fase = false →
        ((Simulador.pasos fuel (Simulador.inicial mt c)).procs i).retenida = 0) := by
  have hinv : Simulador.Inv (Simulador.pasos fuel (Simulador.inicial mt c)) :=
    Simulador.inv_pasos fuel _ (Simulador.inv_inicial mt c)
  have h : Simulador.InvQC (Simulador.pasos fuel (Simulador.inicial mt c))
      (Simulador.pasos fuel (Simulador.inicial mt c)).colaRam
      (Simulador.pasos fuel (Simulador.inicial mt c)).colaCpu := hinv
  have hcfg : (Simulador.pasos fuel (Simulador.inicial mt c)).config = c := by
    rw [Simulador.pasos_config]
    rfl
  refine ⟨?_, h.vivaRet, h.muertaRet⟩
  have hc := h.conserva
  simp only [Simulador.sumaRetenida, hcfg] at hc
  rw [Finset.sum_filter_of_ne]
  · exact hc
  · intro i _ hne
    by_cases hv : Simulador.viva
        ((Simulador.pasos fuel (Simulador.inicial mt c)).procs i).fase = true
    · exact hv
    · exact absurd (h.muertaRet i (Bool.not_eq_true _ ▸ hv)) hne

/-!  ### Claim C2  -/

/-- Claim C2, exhibit: the CPU ticket is NOT released at quantum end before
the I/O delay.  Running simulador.py with one process (instruction total 6)
whose first branch decision is the I/O sentinel: after the fifth event the
process is suspended on its I/O timeout (phase WAITING) while still holding
the CPU server — the `yield env.timeout(tiempo_io)` on line 63 sits inside
the `with CPU.request()` block, so the release only happens at the block
exit after the delay. -/
theorem c2_cpu_retenida_durante_io :
    ((Simulador.pasos 5 (Simulador.inicial flujoC2 confC3)).procs 0).fase
        = Simulador.Fase.esperaIo
    ∧ ((Simulador.pasos 5 (Simulador.inicial flujoC2 confC3)).procs 0).tieneCpu = true
    ∧ (Simulador.pasos 5 (Simulador.inicial flujoC2 confC3)).enUso = 1 := by
  with_unfolding_all decide

/-!  ### Claim C3  -/

/-- Claim C3, counterexample: in Scenario 1 with arrival delay 1 the process
does run exactly 2 quanta, but the RECORDED turnaround is 2 — not
`arrivalDelay + 2 = 3` — because line 52 measures from `tiempo_llegada`,
which is taken after the arrival delay.  (`arrivalDelay + 2` is the
completion instant, not the recorded turnaround.) -/
theorem c3_counterexample :
    Simulador.resultado flujoC3 gCero confC3 8 = [2]
    ∧ ([2] : List ℚ) ≠ [1 + 2] := by
  with_unfolding_all decide

/-!  ### Claims C8 and C10  -/

/-- Claim C8: determinism.  `ejecutar_simulacion` reseeds with the constant
42, so the whole run is a function of the configuration and the seed-42
stream alone: two executions from arbitrary (and different) pre-existing
generator states, run to exhaustion (empty event queue) with any fuels,
harvest identical turnaround sequences. -/
theorem c8_determinismo (mt : ℕ → ℚ) (g₁ g₂ : EstadoRandom)
    (c : Simulador.Config) (f₁ f₂ : ℕ)
    (h₁ : (Simulador.pasos f₁ (Simulador.inicial mt c)).eventos = [])
    (h₂ : (Simulador.pasos f₂ (Simulador.inicial mt c)).eventos = []) :
    Simulador.resultado mt g₁ c f₁ = Simulador.resultado mt g₂ c f₂ := by
  unfold Simulador.resultado
  rcases Nat.le_total f₁ f₂ with h | h
  · have ha := Simulador.pasos_add f₁ (f₂ - f₁) (Simulador.inicial mt c)
    rw [Nat.add_sub_cancel' h] at ha
    rw [ha, Simulador.pasos_of_eventos_nil h₁]
  · have ha := Simulador.pasos_add f₂ (f₁ - f₂) (Simulador.inicial mt c)
    rw [Nat.add_sub_cancel' h] at ha
    rw [ha, Simulador.pasos_of_eventos_nil h₂]

/-- Witness for C8 at Scenario 1: both executions are terminal after 7 and
8 events respectively and agree. -/
theorem c8_determinismo_witness :
    (Simulador.pasos 7 (Simulador.inicial flujoC3 confC3)).eventos = []
    ∧ (Simulador.pasos 8 (Simulador.inicial flujoC3 confC3)).eventos = []
    ∧ Simulador.resultado flujoC3 gCero confC3 7
        = Simulador.resultado flujoC3 gUno confC3 8 :=
  ⟨by with_unfolding_all decide, by with_unfolding_all decide,
    c8_determinismo flujoC3 gCero gUno confC3 7 8 (by with_unfolding_all decide) (by with_unfolding_all decide)⟩

/-- Claim C10: the run entry points take no seed — the caller's global
generator state is unconditionally replaced by `random.seed(42)` (line 79 of
simulador.py, line 28 of prueba.py), so any two invocations with the same
remaining parameters coincide exactly, whatever generator state (or intended
seed) each caller had. -/
theorem c10_semilla_constante (mt : ℕ → ℚ) (g₁ g₂ : EstadoRandom)
    (np : ℕ) (intervalo : ℚ) (mem cpus vel fuel : ℕ)
    (np2 : ℕ) (intervalo2 : ℚ) (fuel2 : ℕ) :
    Simulador.ejecutar_simulacion mt g₁ np intervalo mem cpus vel fuel
      = Simulador.ejecutar_simulacion mt g₂ np intervalo mem cpus vel fuel
    ∧ Prueba.correr_simulacion mt g₁ np2 intervalo2 fuel2
      = Prueba.correr_simulacion mt g₂ np2 intervalo2 fuel2 :=
  ⟨rfl, rfl⟩

/-!  ### Claim C5  -/

/-- Claim C5, counterexample: a run of `ejecutar_simulacion` in which no
process completed (here: zero processes) returns `(np.mean([]), np.std([]))`
= (NaN, NaN), modelled `(none, none)` — not `(0, 0)`.  Only prueba.py's
`correr_simulacion` has the `if tiempos else 0` guard. -/
theorem c5_counterexample :
    Simulador.ejecutar_simulacion flujoCero gCero 0 1 100 1 3 50 = (none, none)
    ∧ ((none, none) : Option ℚ × Option ℝ) ≠ (some 0, some 0) := by
  constructor
  · show (npMean (Simulador.resultado flujoCero gCero ⟨0, 1, 100, 1, 3⟩ 50),
      npStd (Simulador.resultado flujoCero gCero ⟨0, 1, 100, 1, 3⟩ 50)) = (none, none)
    have h : Simulador.resultado flujoCero gCero ⟨0, 1, 100, 1, 3⟩ 50 = [] := by
      unfold Simulador.resultado
      rw [Simulador.pasos_of_eventos_nil rfl]
      rfl
    rw [h]
    rfl
  · simp

/-- Claim C5, amended: prueba.py's `correr_simulacion` is the routine with
the `(0, 0)` empty guard; on a non-empty result its first component is the
arithmetic mean and its second is the population standard deviation (the
nonnegative real whose square is the population variance). -/
theorem c5_amended :
    (∀ (mt : ℕ → ℚ) (g : EstadoRandom) (np : ℕ) (intervalo : ℚ) (fuel : ℕ),
      Prueba.resultado mt g np intervalo fuel = [] →
      Prueba.correr_simulacion mt g np intervalo fuel = (0, 0))
    ∧ (∀ (mt : ℕ → ℚ) (g : EstadoRandom) (np : ℕ) (intervalo : ℚ) (fuel : ℕ),
      Prueba.resultado mt g np intervalo fuel ≠ [] →
      (Prueba.correr_simulacion mt g np intervalo fuel).1
          = mediaPoblacional (Prueba.resultado mt g np intervalo fuel)
      ∧ ((Prueba.correr_simulacion mt g np intervalo fuel).2) ^ 2
          = ((varianzaPoblacional (Prueba.resultado mt g np intervalo fuel) : ℚ) : ℝ)
      ∧ 0 ≤ (Prueba.correr_simulacion mt g np intervalo fuel).2) := by
  constructor
  · intro mt g np intervalo fuel h
    unfold Prueba.correr_simulacion
    rw [if_pos h, if_pos h]
  · intro mt g np intervalo fuel h
    have h1 : Prueba.correr_simulacion mt g np intervalo fuel
        = (mediaPoblacional (Prueba.resultado mt g np intervalo fuel),
           Real.sqrt ((varianzaPoblacional (Prueba.resultado mt g np intervalo fuel) : ℚ) : ℝ)) := by
      unfold Prueba.correr_simulacion
      rw [if_neg h, if_neg h]
    rw [h1]
    refine ⟨rfl, ?_, Real.sqrt_nonneg _⟩
    rw [Real.sq_sqrt]
    exact_mod_cast varianzaPoblacional_nonneg _

/-- Witness for the amended C5: an empty run (zero processes) yields
`(0, 0)`; the one-process run completing with turnaround 1 yields mean 1. -/
theorem c5_amended_witness :
    (Prueba.resultado flujoCero gCero 0 1 3 = []
      ∧ Prueba.correr_simulacion flujoCero gCero 0 1 3 = (0, 0))
    ∧ (Prueba.resultado flujoCero gCero 1 1 8 ≠ []
      ∧ (Prueba.correr_simulacion flujoCero gCero 1 1 8).1
          = mediaPoblacional (Prueba.resultado flujoCero gCero 1 1 8)) :=
  ⟨⟨by with_unfolding_all decide, c5_amended.1 flujoCero gCero 0 1 3 (by with_unfolding_all decide)⟩,
   ⟨by with_unfolding_all decide, (c5_amended.2 flujoCero gCero 1 1 8 (by with_unfolding_all decide)).1⟩⟩

/-!  ### Claim C6  -/

/-- Claim C6, counterexample: a configuration with non-positive
`processCount` (here 0) and otherwise valid parameters is NOT rejected:
`range(0)` is empty, no constructor check fires, the run executes normally
and returns an empty result. -/
theorem c6_counterexample :
    Simulador.ejecutar_simulacion_cruda flujoCero gCero 0 1 100 1 3 50
      = Except.ok []
    ∧ (Except.ok [] : Except ErrorValor (List ℚ))
        ≠ Except.error ErrorValor.capacidadContenedor
    ∧ (Except.ok [] : Except ErrorValor (List ℚ))
        ≠ Except.error ErrorValor.capacidadRecurso := by
  refine ⟨?_, by simp, by simp⟩
  unfold Simulador.ejecutar_simulacion_cruda
  norm_num
  unfold Simulador.resultado
  rw [Simulador.pasos_of_eventos_nil rfl]
  rfl

/-- Claim C6, amended: the only pre-run rejections are the `ValueError`s of
the resource constructors — non-positive `memoryCapacity` (checked first,
line 82) and non-positive `cpuCount` (line 83).  A non-positive
`processCount` is accepted and produces an empty run; nothing validates it
(nor `meanInterArrival`) before events execute. -/
theorem c6_amended (mt : ℕ → ℚ) (g : EstadoRandom) (np : ℤ) (intervalo : ℚ)
    (mem cpus : ℤ) (vel fuel : ℕ) :
    (mem ≤ 0 →
      Simulador.ejecutar_simulacion_cruda mt g np intervalo mem cpus vel fuel
        = Except.error ErrorValor.capacidadContenedor)
    ∧ (0 < mem → cpus ≤ 0 →
      Simulador.ejecutar_simulacion_cruda mt g np intervalo mem cpus vel fuel
        = Except.error ErrorValor.capacidadRecurso)
    ∧ (np ≤ 0 → 0 < mem → 0 < cpus →
      Simulador.ejecutar_simulacion_cruda mt g np intervalo mem cpus vel fuel
        = Except.ok []) := by
  refine ⟨?_, ?_, ?_⟩
  · intro h
    unfold Simulador.ejecutar_simulacion_cruda
    rw [if_pos h]
  · intro hm h
    unfold Simulador.ejecutar_simulacion_cruda
    rw [if_neg (by omega), if_pos h]
  · intro hn hm hc
    unfold Simulador.ejecutar_simulacion_cruda
    rw [if_neg (by omega), if_neg (by omega)]
    have h0 : np.toNat = 0 := by omega
    unfold Simulador.resultado
    have he : (Simulador.inicial mt
        ⟨np.toNat, intervalo, mem.toNat, cpus.toNat, vel⟩).eventos = [] := by
      show ((List.range np.toNat).map _ : List Ev) = []
      rw [h0]
      rfl
    rw [Simulador.pasos_of_eventos_nil he]
    rfl

/-!  ### Claim C9  -/

/-- Claim C9: every RUNNING quantum advances the virtual clock by exactly
one time unit — the wake that starts the quantum schedules the quantum-end
event at exactly its own time + 1, independently of the instruction count —
and the quantum end retires exactly `min(instructionsPerQuantum,
remainingInstructions)` instructions, decrementing the remaining count by
that amount on every branch (termination, I/O, or back to READY). -/
theorem c9_cuanto (st : Simulador.Estado) (e : Ev) (resto : List Ev)
    (hpop : popMin st.eventos = some (e, resto)) :
    ((st.procs e.pid).fase = Simulador.Fase.cpuConcedida →
      (Simulador.paso st).now = e.time
      ∧ (Simulador.paso st).eventos
          = resto ++ [⟨e.time + 1, st.nextSeq, e.pid⟩]
      ∧ ((Simulador.paso st).procs e.pid).fase = Simulador.Fase.ejecutando)
    ∧ ((st.procs e.pid).fase = Simulador.Fase.ejecutando →
      ((Simulador.paso st).procs e.pid).instrucciones
        = (st.procs e.pid).instrucciones
          - min st.config.velocidadCpu (st.procs e.pid).instrucciones) := by
  constructor
  · intro hf
    unfold Simulador.paso
    rw [hpop]
    try dsimp only
    simp only [Simulador.atiende, hf]
    refine ⟨rfl, ?_, ?_⟩
    · simp only [Simulador.programa, Simulador.pon]
      try dsimp only
      try rfl
    · simp only [Simulador.programa, Simulador.pon]
      try dsimp only
      rw [Function.update_same]
  · intro hf
    unfold Simulador.paso
    rw [hpop]
    try dsimp only
    simp only [Simulador.atiende, hf, Simulador.saca]
    try dsimp only
    split
    next hr0 =>
      unfold Simulador.liberaCpu Simulador.disparaCpu
      rw [Simulador.disparaCpuAux_instrucciones]
      simp only [Simulador.pon]
      try dsimp only
      rw [Function.update_same]
      try dsimp only
      unfold Simulador.depositaRam Simulador.disparaRam
      rw [Simulador.disparaRamAux_instrucciones]
      simp only [Simulador.pon]
      try dsimp only
      rw [Function.update_same]
      try dsimp only
      rw [Function.update_same]
    next hr0 =>
      split
      next hdec =>
        simp only [Simulador.programa, Simulador.pon]
        try dsimp only
        rw [Function.update_same]
      next hdec =>
        unfold Simulador.solicitaCpu Simulador.disparaCpu
        rw [Simulador.disparaCpuAux_instrucciones]
        simp only [Simulador.pon]
        try dsimp only
        rw [Function.update_same]
        try dsimp only
        rw [Simulador.liberaCpu_instrucciones]
        simp only [Simulador.pon]
        try dsimp only
        rw [Function.update_same]

/-- Witness for C9 on the concrete run: the fourth event starts a quantum at
time 0 and schedules its end at time 1; the fifth event retires
`min(3, 6) = 3` instructions. -/
theorem c9_cuanto_witness :
    (popMin (Simulador.pasos 3 (Simulador.inicial flujoC2 confC3)).eventos
        = some (⟨0, 3, 0⟩, [])
      ∧ ((Simulador.pasos 3 (Simulador.inicial flujoC2 confC3)).procs 0).fase
        = Simulador.Fase.cpuConcedida
      ∧ (Simulador.paso (Simulador.pasos 3 (Simulador.inicial flujoC2 confC3))).now = 0
      ∧ (Simulador.paso (Simulador.pasos 3 (Simulador.inicial flujoC2 confC3))).eventos
        = [] ++ [⟨0 + 1, 4, 0⟩])
    ∧ (((Simulador.pasos 4 (Simulador.inicial flujoC2 confC3)).procs 0).fase
        = Simulador.Fase.ejecutando
      ∧ ((Simulador.paso (Simulador.pasos 4 (Simulador.inicial flujoC2 confC3))).procs 0).instrucciones
        = 6 - min 3 6) :=
  ⟨⟨by with_unfolding_all decide, by with_unfolding_all decide,
    ((c9_cuanto (Simulador.pasos 3 (Simulador.inicial flujoC2 confC3)) ⟨0, 3, 0⟩ []
      (by with_unfolding_all decide)).1 (by with_unfolding_all decide)).1,
    by
      have h := ((c9_cuanto (Simulador.pasos 3 (Simulador.inicial flujoC2 confC3)) ⟨0, 3, 0⟩ []
        (by with_unfolding_all decide)).1 (by with_unfolding_all decide)).2.1
      rw [h]
      with_unfolding_all decide⟩,
   ⟨by with_unfolding_all decide, by
    have h := (c9_cuanto (Simulador.pasos 4 (Simulador.inicial flujoC2 confC3)) ⟨1, 4, 0⟩ []
      (by with_unfolding_all decide)).2 (by with_unfolding_all decide)
    rw [h]
    with_unfolding_all decide⟩⟩

/-!  ### Claim C7  -/

/-- Claim C7 (amended): in simulador.py the WAITING duration is
`random.uniform(1, 3)` — the uniform image of the next stream draw, always
within `[1, 3]` — and after the delay the process goes back to READY,
re-requesting the CPU (it may be granted at once).  In prueba.py the I/O
sleep is instead the fixed constant 3 (see the counterexample). -/
theorem c7_io_uniforme :
    (∀ (st : Simulador.Estado) (e : Ev) (resto : List Ev),
      popMin st.eventos = some (e, resto) →
      (st.procs e.pid).fase = Simulador.Fase.ejecutando →
      ¬((st.procs e.pid).instrucciones
          - min st.config.velocidadCpu (st.procs e.pid).instrucciones = 0) →
      randintDraw 1 21 (st.flujo st.cursor) = 1 →
      (Simulador.paso st).eventos
        = resto ++ [⟨e.time + uniformDraw 1 3 (st.flujo (st.cursor + 1)),
            st.nextSeq, e.pid⟩]
      ∧ ((Simulador.paso st).procs e.pid).fase = Simulador.Fase.esperaIo
      ∧ 1 ≤ uniformDraw 1 3 (st.flujo (st.cursor + 1))
      ∧ uniformDraw 1 3 (st.flujo (st.cursor + 1)) ≤ 3)
    ∧ (∀ (st : Simulador.Estado) (e : Ev) (resto : List Ev),
      popMin st.eventos = some (e, resto) →
      (st.procs e.pid).fase = Simulador.Fase.esperaIo →
      0 < (st.procs e.pid).instrucciones →
      ((Simulador.paso st).procs e.pid).fase = Simulador.Fase.esperaCpu
        ∨ ((Simulador.paso st).procs e.pid).fase = Simulador.Fase.cpuConcedida) := by
  constructor
  · intro st e resto hpop hf hr0 hdec
    unfold Simulador.paso
    rw [hpop]
    try dsimp only
    simp only [Simulador.atiende, hf, Simulador.saca]
    try dsimp only
    rw [if_neg hr0, if_pos hdec]
    refine ⟨?_, ?_, ?_, ?_⟩
    · simp only [Simulador.programa, Simulador.pon]
      try dsimp only
      try rfl
    · simp only [Simulador.programa, Simulador.pon]
      try dsimp only
      rw [Function.update_same]
    · exact (uniformDraw_mem 1 3 _ (by norm_num)).1
    · exact (uniformDraw_mem 1 3 _ (by norm_num)).2
  · intro st e resto hpop hf hpos
    unfold Simulador.paso
    rw [hpop]
    try dsimp only
    simp only [Simulador.atiende, hf]
    try dsimp only
    split
    next _ =>
      exact Simulador.solicitaCpu_fase _ _
    next hneg =>
      exfalso
      rw [Simulador.liberaCpu_instrucciones] at hneg
      exact hneg hpos

/-- Witness for C7 on the concrete run: the fifth event takes the I/O
branch with uniform draw 0 — delay `1 + 2·0 = 1 ∈ [1, 3]` — and the sixth
resumes the process back towards the CPU. -/
theorem c7_io_uniforme_witness :
    (popMin (Simulador.pasos 4 (Simulador.inicial flujoC2 confC3)).eventos
        = some (⟨1, 4, 0⟩, [])
      ∧ (Simulador.paso (Simulador.pasos 4 (Simulador.inicial flujoC2 confC3))).eventos
        = [] ++ [⟨1 + uniformDraw 1 3 (flujoC2 4), 5, 0⟩]
      ∧ ((Simulador.pasos 5 (Simulador.inicial flujoC2 confC3)).procs 0).fase
        = Simulador.Fase.esperaIo)
    ∧ (((Simulador.paso (Simulador.pasos 5 (Simulador.inicial flujoC2 confC3))).procs 0).fase
        = Simulador.Fase.esperaCpu
      ∨ ((Simulador.paso (Simulador.pasos 5 (Simulador.inicial flujoC2 confC3))).procs 0).fase
        = Simulador.Fase.cpuConcedida) :=
  ⟨⟨by with_unfolding_all decide,
    by
      have h := ((c7_io_uniforme.1 (Simulador.pasos 4 (Simulador.inicial flujoC2 confC3))
        ⟨1, 4, 0⟩ [] (by with_unfolding_all decide) (by with_unfolding_all decide)
        (by with_unfolding_all decide) (by with_unfolding_all decide))).1
      rw [h]
      with_unfolding_all decide,
    by with_unfolding_all decide⟩,
   c7_io_uniforme.2 (Simulador.pasos 5 (Simulador.inicial flujoC2 confC3)) ⟨2, 5, 0⟩ []
      (by with_unfolding_all decide) (by with_unfolding_all decide)
      (by with_unfolding_all decide)⟩

/-- Claim C7, counterexample: in prueba.py the I/O delay is not drawn
uniformly from [1, 3] — line 21 sleeps the constant 3.  In the concrete run
entering WAITING at time 1, the resume event is scheduled at time 4 (delay
exactly 3) and no stream value is consumed for the duration: had the code
drawn `uniform(1, 3)` from the next raw value 1/4, the delay would have been
3/2. -/
theorem c7_counterexample :
    (Prueba.pasos 6 (Prueba.inicial flujoC7p 1 1)).eventos = [⟨4, 6, 0⟩]
    ∧ ((Prueba.pasos 6 (Prueba.inicial flujoC7p 1 1)).procs 0).fase
        = Prueba.Fase.esperaIo
    ∧ (Prueba.pasos 6 (Prueba.inicial flujoC7p 1 1)).now = 1
    ∧ (Prueba.pasos 6 (Prueba.inicial flujoC7p 1 1)).cursor = 4
    ∧ uniformDraw 1 3 (flujoC7p 4) = 3 / 2
    ∧ ((4 : ℚ) - 1) ≠ 3 / 2 := by
  with_unfolding_all decide

/-- Witness for the amended C6 at concrete invalid inputs. -/
theorem c6_amended_witness :
    (Simulador.ejecutar_simulacion_cruda flujoCero gCero 5 1 (-3) 1 3 10
        = Except.error ErrorValor.capacidadContenedor)
    ∧ (Simulador.ejecutar_simulacion_cruda flujoCero gCero 5 1 100 0 3 10
        = Except.error ErrorValor.capacidadRecurso)
    ∧ (Simulador.ejecutar_simulacion_cruda flujoCero gCero (-2) 1 100 1 3 10
        = Except.ok []) :=
  ⟨(c6_amended flujoCero gCero 5 1 (-3) 1 3 10).1 (by norm_num),
   (c6_amended flujoCero gCero 5 1 100 0 3 10).2.1 (by norm_num) (by norm_num),
   (c6_amended flujoCero gCero (-2) 1 100 1 3 10).2.2 (by norm_num) (by norm_num)
     (by norm_num)⟩

/-- Claim C3, amended: in Scenario 1 (one process, memory 10, one CPU,
quantum speed 3, draws giving memory demand 5, instruction total 4 and no
I/O branch), the process runs exactly 2 quanta — 3 instructions then 1 —
and the recorded turnaround is `completionTime - arrivalTime = 2`, where
completion happens at virtual time `arrivalDelay + 2`; the value stored in
`tiempos_ejecucion` is 2, not `arrivalDelay + 2`, because line 22 resets
`tiempo_llegada = env.now` after the initial arrival delay. -/
theorem c3_amended :
    ((Simulador.pasos 4 (Simulador.inicial flujoC3 confC3)).procs 0).instrucciones = 4
    ∧ ((Simulador.pasos 5 (Simulador.inicial flujoC3 confC3)).procs 0).instrucciones = 4 - 3
    ∧ ((Simulador.pasos 7 (Simulador.inicial flujoC3 confC3)).procs 0).instrucciones = 0
    ∧ ((Simulador.pasos 7 (Simulador.inicial flujoC3 confC3)).procs 0).cuantos = 2
    ∧ ((Simulador.pasos 7 (Simulador.inicial flujoC3 confC3)).procs 0).llegada = 1
    ∧ (Simulador.pasos 7 (Simulador.inicial flujoC3 confC3)).now = 1 + 2
    ∧ Simulador.resultado flujoC3 gCero confC3 7 = [(1 + 2) - 1]
    ∧ (Simulador.pasos 7 (Simulador.inicial flujoC3 confC3)).eventos = [] := by
  with_unfolding_all decide

/-- Claim C4, counterexample: simulador.py has no arrival generator — lines
86-87 spawn every `proceso` at time 0 and each one sleeps its own single
exponential gap (line 20), so arrival times are the individual gaps, not
their cumulative sums.  With gaps 1 and 2 the second process arrives at
virtual time 2, whereas the claimed cumulative scheme would place it at
1 + 2 = 3. -/
theorem c4_counterexample :
    ((Simulador.pasos 6 (Simulador.inicial flujoC4s confC4s)).procs 0).llegada = 1
    ∧ ((Simulador.pasos 6 (Simulador.inicial flujoC4s confC4s)).procs 1).llegada = 2
    ∧ ((2 : ℚ) ≠ 1 + 2) := by
  with_unfolding_all decide

/-- Claim C4, amended: in simulador.py each process is spawned at time 0 and
delays its own exponential gap, so process i's arrival time equals its own
gap draw alone (here the draws at stream positions 0 and 1); in prueba.py the
único generator `generar_procesos` creates process 0 immediately at time 0
and delays one shared-stream gap between creations, so arrival times are the
cumulative sums starting at 0 (the second process arrives at 0 + gap). -/
theorem c4_amended :
    (((Simulador.pasos 6 (Simulador.inicial flujoC4s confC4s)).procs 0).llegada
        = expovariateDraw 1 (flujoC4s 0)
    ∧ ((Simulador.pasos 6 (Simulador.inicial flujoC4s confC4s)).procs 1).llegada
        = expovariateDraw 1 (flujoC4s 1))
    ∧ (((Prueba.pasos 8 (Prueba.inicial flujoC4p 2 1)).procs 0).llegada = 0
    ∧ ((Prueba.pasos 8 (Prueba.inicial flujoC4p 2 1)).procs 1).llegada
        = 0 + expovariateDraw 1 (flujoC4p 1)) := by
  with_unfolding_all decide

end HdT5
